import Mathlib

set_option maxRecDepth 8000

/-!
# Verification of the poem-generation orchestration layer

A shallow embedding, over `List Char`, of the generation service in
`app/services/poem_service.py` (class `PoemService`) and the response
assembly in `app/main.py`, together with proofs of the behavioural
claims about it.

Modelling conventions:
* Python strings are modelled as `List Char` (`Str` below); `str.strip`,
  `str.lower`, `str.split`, `str.replace`, substring tests (`in`) and
  slicing are given executable models over lists (ASCII semantics, which
  covers all data appearing in the program).
* Python's process-wide `random` module is modelled as an explicit state
  `PyRandom` (current seed plus number of draws made since seeding),
  threaded through the code that uses it; the values produced by the
  generator are supplied by an arbitrary oracle `f : ℕ → ℕ → ℕ`
  (seed, draw index ↦ value), so theorems quantifying over the oracle
  cover every possible random behaviour.
* The MD5 hash used to derive the mock generator's seed and the remote
  API (OpenAI) are external to the program; they are modelled as oracle
  parameters (`md5h`, and per-call results `api`).  Remote API calls are
  indexed by the order in which they are issued.
* Floating point delays are modelled with exact rational arithmetic.
-/

/-- Python strings are modelled as lists of characters. -/
abbrev Str : Type := List Char

/-- Characters of a Lean string literal, used to write embedded program data. -/
def str (s : String) : Str := s.data

/-- The characters Python's `str.strip()` / `str.split()` treat as whitespace
(ASCII fragment). -/
def pyIsSpace (c : Char) : Bool :=
  c = ' ' || c = '\t' || c = '\n' || c = '\r' || c = '\x0b' || c = '\x0c'

/-- Python `s.lstrip()`. -/
def lstrip (s : Str) : Str := s.dropWhile pyIsSpace

/-- Python `s.rstrip()`. -/
def rstrip (s : Str) : Str := (s.reverse.dropWhile pyIsSpace).reverse

/-- Python `s.strip()`. -/
def pyStrip (s : Str) : Str := rstrip (lstrip s)

/-- Python `s.lower()` (ASCII). -/
def lowerL (s : Str) : Str := s.map Char.toLower

/-- Python `s.upper()` (ASCII). -/
def upperL (s : Str) : Str := s.map Char.toUpper

/-- `s.startswith(p)`, executable form. -/
def isPrefB : Str → Str → Bool
  | [], _ => true
  | _ :: _, [] => false
  | a :: as, b :: bs => a = b && isPrefB as bs

/-- `p in s` (substring test), executable form. -/
def isInfB (p : Str) : Str → Bool
  | [] => isPrefB p []
  | s@(_ :: tail) => isPrefB p s || isInfB p tail

/-- `s.endswith(p)`, executable form. -/
def isSuffB (p s : Str) : Bool := isPrefB p.reverse s.reverse

/-- `s.startswith(p)` as a proposition: `s = p ++ t`. -/
def StartsWith (s p : Str) : Prop := ∃ t, s = p ++ t

/-- `s.endswith(p)` as a proposition: `s = t ++ p`. -/
def EndsWith (s p : Str) : Prop := ∃ t, s = t ++ p

/-- `p in s` (Python substring containment) as a proposition. -/
def ContainsS (s p : Str) : Prop := ∃ u v, s = u ++ p ++ v

/-- Python `s.split('\n')`. -/
def splitNl : Str → List Str
  | [] => [[]]
  | c :: cs =>
    match splitNl cs with
    | [] => [[c]]
    | h :: t => if c = '\n' then [] :: h :: t else (c :: h) :: t

/-- `'\n'.join(lines)`. -/
def joinNl (lines : List Str) : Str := List.intercalate ['\n'] lines

/-- Python `s.split()` (split on whitespace runs, dropping empty tokens);
`acc` holds the reversed current token. -/
def splitWsAux : Str → Str → List Str
  | [], acc => if acc = [] then [] else [acc.reverse]
  | c :: cs, acc =>
    if pyIsSpace c then
      if acc = [] then splitWsAux cs [] else acc.reverse :: splitWsAux cs []
    else splitWsAux cs (c :: acc)

/-- Python `s.split()`. -/
def pySplitWs (s : Str) : List Str := splitWsAux s []

/-- First occurrence split: `splitFirst p s = some (u, v)` iff `p` occurs in
`s`, with `s = u ++ p ++ v` at the leftmost occurrence. -/
def splitFirst (p : Str) : Str → Option (Str × Str)
  | [] => if p = [] then some ([], []) else none
  | s@(c :: cs) =>
    if isPrefB p s then some ([], s.drop p.length)
    else
      match splitFirst p cs with
      | some (u, v) => some (c :: u, v)
      | none => none

/-- Python `s.replace(p, r)` (all non-overlapping occurrences, left to
right); fuelled so that the definition is structural.  `replaceAll` below
supplies sufficient fuel. -/
def replaceAllF (p r : Str) : ℕ → Str → Str
  | 0, s => s
  | fuel + 1, s =>
    match splitFirst p s with
    | none => s
    | some (u, v) => u ++ r ++ replaceAllF p r fuel v

/-- Python `s.replace(p, r)`. -/
def replaceAll (p r s : Str) : Str := replaceAllF p r (s.length + 1) s

/-- Python `s.replace(p, r, 1)` (first occurrence only). -/
def replaceFirst (p r s : Str) : Str :=
  match splitFirst p s with
  | none => s
  | some (u, v) => u ++ r ++ v

/-- Number of (leftmost, non-overlapping) occurrences of `p` in `s`,
fuelled like `replaceAllF`. -/
def occCountF (p : Str) : ℕ → Str → ℕ
  | 0, _ => 0
  | fuel + 1, s =>
    match splitFirst p s with
    | none => 0
    | some (_, v) => occCountF p fuel v + 1

def occCount (p s : Str) : ℕ := occCountF p s.length s

/-- Python `s.capitalize()` (first character upper-cased, rest lower-cased). -/
def capitalizeL : Str → Str
  | [] => []
  | c :: cs => Char.toUpper c :: lowerL cs

/-- Python `s.title()` (ASCII): a letter is upper-cased iff the previous
character is not a letter; other letters are lower-cased. -/
def titleAux : Bool → Str → Str
  | _, [] => []
  | prevAlpha, c :: cs =>
    if c.isAlpha then
      (if prevAlpha then Char.toLower c else Char.toUpper c) :: titleAux true cs
    else c :: titleAux false cs

def titleL (s : Str) : Str := titleAux false s

/-! ## Program data (`PoemService`)

Transcribed verbatim from `app/services/poem_service.py`. -/

/-- Style tags accepted by the API (`supported_styles`). -/
inductive PStyle | creative | haiku | sonnet | free_verse | rhyming
deriving DecidableEq, Repr

/-- Length tags accepted by the API (`supported_lengths`). -/
inductive PLength | short | medium | long
deriving DecidableEq, Repr

/-- Theme categories of the mock catalog (`poem_templates` keys). -/
inductive ThemeCat | love | nature | dreams
deriving DecidableEq, Repr

def PStyle.toStr : PStyle → Str
  | .creative => str "creative"
  | .haiku => str "haiku"
  | .sonnet => str "sonnet"
  | .free_verse => str "free_verse"
  | .rhyming => str "rhyming"

def PLength.toStr : PLength → Str
  | .short => str "short"
  | .medium => str "medium"
  | .long => str "long"

/-- Keyword lists of the theme classifier in `_generate_mock_poem`. -/
def loveKeywords : List Str :=
  [str "love", str "heart", str "romance", str "valentine", str "relationship"]

def natureKeywords : List Str :=
  [str "nature", str "forest", str "tree", str "flower", str "mountain",
   str "ocean", str "river", str "bird", str "animal"]

def dreamKeywords : List Str :=
  [str "dream", str "sleep", str "night", str "fantasy", str "imagination", str "wish"]

/-- `poem_templates` of `_generate_mock_poem`. -/
def poemTemplates (cat : ThemeCat) (len : PLength) : List Str :=
  match cat, len with
  | .love, .short =>
    [str "Love blooms like {flower} in {season},\nTwo souls united beyond all reason.\nIn {adjective} moments we find our way,\nLove's gentle {noun} brightens each day.",
     str "Your {body_part} speaks what words cannot say,\nIn love's embrace we'll always stay.\nThrough {weather} storms and sunny skies,\nOur love's the {noun} that never dies.",
     str "Like {celestial} dancing in the night,\nOur hearts burn with {adjective} light.\nIn {location} or {location} we roam,\nYour love will always be my home."]
  | .love, .medium =>
    [str "In gardens where the {flower}s grow,\nLove's {adjective} secrets gently flow.\nWith {adjective} words and tender care,\nWe find our {noun} everywhere.\n\nThrough seasons of both joy and {noun},\nOur hearts dance in love's sweet refrain.\nLike {celestial} that shine above,\nWe're bound together by true love.",
     str "Beneath the {adjective} {weather} sky,\nWhere {adjective} dreams learn how to fly,\nLove finds its way through {noun} and space,\nA gentle touch, a warm embrace.\n\nThrough {weather} storms and {adjective} days,\nLove guides us through life's winding maze.\nWith every breath and beating heart,\nWe know we'll never drift apart."]
  | .love, .long =>
    [str "When {celestial} paint the evening sky,\nAnd gentle {weather} whispers by,\nLove blooms like {flower}s in the spring,\nA {adjective} and precious thing.\n\nIn {location} where the {flower}s grow,\nAnd crystal {noun}s gently flow,\nTwo hearts discover what is true,\nA love that's {adjective} through and through.\n\nThrough {weather} storms and sunny days,\nLove lights our path in countless ways.\nWith {adjective} touch and whispered word,\nOur hearts fly free like soaring bird.\n\nSo let us dance in love's sweet light,\nAnd hold each other through the night.\nFor in this love we've come to know,\nOur souls have found their place to grow."]
  | .nature, .short =>
    [str "In {location} where {animal}s play,\nNature paints a new display.\nThe {weather} {noun} and {adjective} trees,\nDance together in the breeze.",
     str "Beneath the {adjective} {celestial} above,\nNature shows us how to love.\n{Animal}s sing their {adjective} song,\nWhere wild {flower}s have grown strong.",
     str "{Weather} whispers through the {noun},\nWhere ancient {tree}s have always been.\nIn every leaf and {flower} bright,\nNature fills the world with light."]
  | .nature, .medium =>
    [str "In {location} where {animal}s roam free,\nBeneath the shade of {adjective} tree,\nNature weaves her {adjective} spell,\nStories that the {weather} tell.\n\nThe {noun} flows with {adjective} grace,\nReflecting {celestial}'s gentle face.\nWhile {animal}s dance in morning dew,\nNature's magic shines right through.",
     str "Deep in {location} shadows play,\nWhere {adjective} {tree}s hold sway.\n{Celestial} filters through the leaves,\nAs nature's {noun} softly weaves.\n\nThe {weather} {noun} tells stories old,\nOf seasons past and legends told.\nWhile {animal}s dance through morning mist,\nBy nature's {adjective} hand are kissed."]
  | .nature, .long =>
    [str "In {location} vast and wild and free,\nWhere {animal}s roam beside the sea,\nNature paints with {adjective} hand,\nAcross this {adjective} wonderland.\n\nThe {weather} sings through {tree} tall,\nWhile {flower}s bloom for one and all.\n{Animal}s call from {noun} deep,\nWhere ancient secrets nature keeps.\n\n{Celestial} dance across the sky,\nAs gentle {weather} breezes sigh.\nIn every stone and grain of sand,\nWe see the work of nature's hand.\n\nFrom {location} high to valleys low,\nNature's {adjective} wonders grow.\nA world of beauty, wild and free,\nNature's perfect symphony."]
  | .dreams, .short =>
    [str "In dreams where {adjective} {animal}s fly,\nBeneath the {weather} {celestial} sky.\nHope and wonder intertwine,\nIn realms both {adjective} and divine.",
     str "When {noun} falls and day is done,\nAnd dreams begin their {adjective} run,\nWe journey to a world unknown,\nWhere {adjective} seeds are freely sown.",
     str "Close your {body_part} and drift away,\nTo where dreams hold {adjective} sway.\nBeyond the boundaries of {noun},\nWhere {adjective} meets the sublime."]
  | .dreams, .medium =>
    [str "In castles built of {adjective} light,\nWe wander through the {weather} night.\nWhere {animal}s speak and {flower}s sing,\nAnd {noun} can do most anything.\n\nThrough gardens of the sleeping mind,\nWe leave our {adjective} cares behind.\nAnd in this realm of pure delight,\nOur spirits soar throughout the night.",
     str "When {celestial} begin to fade,\nAnd dreamy {noun}s are softly made,\nWe sail on {weather} winds so high,\nAcross the {adjective} dream-filled sky.\n\nIn lands where {adjective} {animal}s play,\nAnd {flower}s bloom in strange array,\nOur dreams unfold like {noun} bright,\nGuiding us through the night."]
  | .dreams, .long =>
    [str "In realm where {adjective} dreams take flight,\nBeyond the veil of day and night,\nWhere {animal}s dance on {weather} air,\nAnd {flower}s bloom beyond compare.\n\nThrough {location} of the sleeping mind,\nWhere {adjective} treasures we can find,\n{Celestial} guide our spirits free,\nTo lands of {noun} and mystery.\n\nIn dreams we ride on {weather} wings,\nWhere every {noun} softly sings,\nAnd {adjective} castles touch the sky,\nWhere hopes and wishes never die.\n\nSo dream, dear soul, and do not fear,\nFor in your dreams, all truth is clear.\nA world where {noun} and joy run free,\nAnd you can be all you can be."]

/-- `word_banks` of `_generate_mock_poem`, in dict insertion order. -/
def wordBanks : List (Str × List Str) :=
  [(str "flower", [str "roses", str "lilies", str "daisies", str "tulips", str "orchids", str "sunflowers", str "peonies", str "violets"]),
   (str "season", [str "spring", str "summer", str "autumn", str "winter", str "dawn", str "twilight"]),
   (str "adjective", [str "gentle", str "radiant", str "peaceful", str "vibrant", str "serene", str "luminous", str "graceful", str "tender", str "mystical", str "enchanting"]),
   (str "noun", [str "whisper", str "melody", str "harmony", str "symphony", str "journey", str "treasure", str "wonder", str "miracle", str "magic", str "beauty"]),
   (str "body_part", [str "eyes", str "smile", str "heart", str "soul", str "voice", str "touch"]),
   (str "weather", [str "misty", str "golden", str "silver", str "crystal", str "starlit", str "moonlit"]),
   (str "celestial", [str "stars", str "moon", str "sun", str "comets", str "galaxies", str "constellations"]),
   (str "location", [str "meadows", str "mountains", str "forests", str "gardens", str "valleys", str "riversides", str "hillsides"]),
   (str "animal", [str "birds", str "deer", str "butterflies", str "foxes", str "rabbits", str "eagles", str "dolphins"]),
   (str "tree", [str "oaks", str "willows", str "pines", str "maples", str "birches", str "cedars"])]

/-- `custom_templates` of `_generate_custom_theme_poem`. -/
def customTemplates (len : PLength) : List Str :=
  match len with
  | .short =>
    [str "Upon the theme of \"{theme}\" I write,\nWith words that dance in {adjective} light.\nInspiration flows like morning dew,\nCreating verses fresh and new.",
     str "In contemplation of \"{theme}\" so bright,\nI weave these words with pure delight.\nLet {noun} take its winding course,\nAnd poetry flow from creative source.",
     str "The beauty of \"{theme}\" unfolds,\nIn {adjective} stories that poet tells.\nWith {noun} and rhythm combined,\nI craft these verses for heart and mind."]
  | .medium =>
    [str "Upon the canvas of \"{theme}\",\nI paint with words a {adjective} dream.\nWhere thoughts and feelings intertwine,\nAnd create something quite divine.\n\nLet metaphors dance through each line,\nAs imagery and rhythm combine.\nTo bring your vision into view,\nA poem crafted just for you.",
     str "In realm of \"{theme}\" we explore,\nWhere {adjective} wonders lie in store.\nWith {noun} as our faithful guide,\nWe journey to the other side.\n\nThrough {adjective} paths and winding ways,\nWe discover {noun} that never fades.\nA {adjective} tribute to your theme,\nLike poetry from a {adjective} dream."]
  | .long =>
    [str "In contemplation of \"{theme}\" so bright,\nI weave these words with pure delight.\nLet imagination take its course,\nAnd poetry flow from creative source.\n\nThrough metaphor and imagery clear,\nThe essence of your theme draws near.\nWith rhythm, rhyme, and {adjective} emotion,\nI craft this verse like {noun} potion.\n\nIn every line a {noun} lies,\nBeneath the {weather} painted skies.\nMay these words touch your very soul,\nAnd make your spirit feel more whole.\n\nFor in the art of poetry,\nWe find our shared humanity.\nA {adjective} bridge from heart to heart,\nWhere {noun} and beauty never part."]

/-! ## The sanitizer (`_clean_poem_text`) -/

/-- `prefixes_to_remove` of `_clean_poem_text`. -/
def prefixesToRemove : List Str :=
  [str "Here's a poem", str "Here is a poem", str "Here's your poem",
   str "I'll write", str "Let me write", str "A poem about",
   str "Title:", str "Poem:", str "Verse:"]

/-- One iteration of the line loop of `_clean_poem_text`: `none` means the
line is dropped, `some l` that `l` is appended to `cleaned_lines`. -/
def cleanLine (line : Str) : Option Str :=
  let l := pyStrip line
  if l = [] then some []
  else if prefixesToRemove.any (fun p => isPrefB (lowerL p) (lowerL l)) then none
  else if (l.head? == some '"' && l.getLast? == some '"')
       || (l.head? == some '\'' && l.getLast? == some '\'') then
    some ((l.drop 1).dropLast)
  else some l

/-- `PoemService._clean_poem_text`. -/
def cleanPoemText (poemText : Str) : Str :=
  pyStrip (joinNl ((splitNl poemText).filterMap cleanLine))

/-! ## The process-wide `random` module and external oracles -/

/-- State of Python's process-wide `random` generator: the seed it was last
seeded with, and how many draws have been made since.  `random.seed(s)`
resets the state to `⟨s, 0⟩`. -/
structure PyRandom where
  seedv : ℕ
  cnt : ℕ
deriving DecidableEq, Repr

/-- External inputs of the mock engine: the value oracle of the random
generator (`f seed drawIndex`), the MD5-derived seed
(`int(hashlib.md5(..).hexdigest()[:8], 16)`, opaque to the program), and the
current `datetime.now().microsecond`. -/
structure MockEnv where
  f : ℕ → ℕ → ℕ
  md5h : Str → ℕ
  micro : ℕ

/-- One draw from the process-wide generator. -/
def draw (env : MockEnv) (g : PyRandom) : ℕ × PyRandom :=
  (env.f g.seedv g.cnt, ⟨g.seedv, g.cnt + 1⟩)

/-- `random.choice(l)`: one draw used as an index into `l`. -/
def pychoice (env : MockEnv) (l : List Str) (g : PyRandom) : Str × PyRandom :=
  let (n, g') := draw env g
  (l.getD (n % l.length) [], g')

/-! ## The template engine (`_generate_mock_poem`, `_generate_custom_theme_poem`) -/

/-- The placeholder token of a word-bank category: `'{' + cat + '}'`. -/
def ph (cat : Str) : Str := '{' :: (cat ++ ['}'])

/-- `[t.lower() for t in theme.split() if len(t) > 2]`. -/
def themeTokens (theme : Str) : List Str :=
  (pySplitWs theme).filterMap (fun t => if 2 < t.length then some (lowerL t) else none)

/-- Theme classification of `_generate_mock_poem` (keyword substring match,
first category wins; `none` routes to the custom-theme generator). -/
def classifyTheme (theme : Str) : Option ThemeCat :=
  let tl := lowerL theme
  if loveKeywords.any (fun w => isInfB w tl) then some .love
  else if natureKeywords.any (fun w => isInfB w tl) then some .nature
  else if dreamKeywords.any (fun w => isInfB w tl) then some .dreams
  else none

/-- One iteration of the word-bank loop of `_generate_mock_poem`: draw three
candidates and one pick among them, then replace all four case-variant forms
of the placeholder with that single pick. -/
def fillCategory (env : MockEnv) (cat : Str) (words : List Str) (t : Str)
    (g : PyRandom) : Str × PyRandom :=
  let c1 := (pychoice env words g).1
  let g1 := (pychoice env words g).2
  let c2 := (pychoice env words g1).1
  let g2 := (pychoice env words g1).2
  let c3 := (pychoice env words g2).1
  let g3 := (pychoice env words g2).2
  let repl := (pychoice env [c1, c2, c3] g3).1
  let g4 := (pychoice env [c1, c2, c3] g3).2
  (replaceAll (ph (titleL cat)) repl
    (replaceAll (ph (upperL cat)) repl
      (replaceAll (ph (capitalizeL cat)) repl
        (replaceAll (ph cat) repl t))), g4)

/-- The full word-bank loop over the banks in dict order. -/
def fillCats (env : MockEnv) : List (Str × List Str) → Str → PyRandom → Str × PyRandom
  | [], t, g => (t, g)
  | (cat, words) :: rest, t, g =>
    fillCats env rest (fillCategory env cat words t g).1 (fillCategory env cat words t g).2

/-- The relevance patch of `_generate_mock_poem`: if the theme contributes
tokens longer than two characters and none occurs in the filled template,
append `"\n\n(about {theme})"` to the right-stripped poem. -/
def mockAnnotate (theme poem : Str) : Str :=
  let tl := themeTokens theme
  if !tl.isEmpty && !(tl.any fun tok => isInfB tok (lowerL poem)) then
    rstrip poem ++ str "\n\n(about " ++ theme ++ [')']
  else poem

/-- The `while placeholder in template` loop of `_generate_custom_theme_poem`:
replace one occurrence at a time, each with a fresh draw.  The Python loop
is unbounded; here it carries fuel, and `t.length` iterations at entry are
sufficient for exact agreement because each iteration eliminates exactly one
occurrence and (with the program's word banks, which contain no braces and no
factor of a placeholder) never creates a new one — see `fillLoop_complete`. -/
def fillLoop (env : MockEnv) (p : Str) (words : List Str) :
    ℕ → Str → PyRandom → Str × PyRandom
  | 0, t, g => (t, g)
  | fuel + 1, t, g =>
    match splitFirst p t with
    | none => (t, g)
    | some (u, v) =>
      fillLoop env p words fuel
        (u ++ (pychoice env words g).1 ++ v) (pychoice env words g).2

/-- The word-bank loop of `_generate_custom_theme_poem` (lower-case
placeholder form only, one occurrence per draw). -/
def fillLoops (env : MockEnv) : List (Str × List Str) → Str → PyRandom → Str × PyRandom
  | [], t, g => (t, g)
  | (cat, words) :: rest, t, g =>
    fillLoops env rest (fillLoop env (ph cat) words t.length t g).1
      (fillLoop env (ph cat) words t.length t g).2

/-- `PoemService._generate_custom_theme_poem` (the `random_gen` argument is
the process-wide `random` module, threaded as `g`). -/
def customThemePoem (env : MockEnv) (theme : Str) (len : PLength)
    (g : PyRandom) : Str × PyRandom :=
  let t0 := (pychoice env (customTemplates len) g).1
  let g1 := (pychoice env (customTemplates len) g).2
  let t1 := replaceAll (str "\"{theme}\"") ('"' :: (theme ++ ['"'])) t0
  fillLoops env wordBanks t1 g1

/-- `seed_string = f"{theme.lower()}-{style}-{length}-{datetime.now().microsecond}"`. -/
def seedString (theme : Str) (style : PStyle) (len : PLength) (micro : ℕ) : Str :=
  lowerL theme ++ ['-'] ++ style.toStr ++ ['-'] ++ len.toStr ++ ['-'] ++ str (toString micro)

/-- `PoemService._generate_mock_poem`.  Returns the generated text and the
final state of the process-wide `random` generator.  The initial draw models
`asyncio.sleep(random.uniform(0.8, 1.5))`; `random.seed(seed)` then resets
the process-wide state. -/
def mockPoem (env : MockEnv) (theme : Str) (style : PStyle) (len : PLength)
    (g0 : PyRandom) : Str × PyRandom :=
  let _g1 := (draw env g0).2
  let seed := env.md5h (seedString theme style len env.micro)
  let g2 : PyRandom := ⟨seed, 0⟩
  match classifyTheme theme with
  | some cat =>
    let t0 := (pychoice env (poemTemplates cat len) g2).1
    let g3 := (pychoice env (poemTemplates cat len) g2).2
    (mockAnnotate theme (fillCats env wordBanks t0 g3).1,
     (fillCats env wordBanks t0 g3).2)
  | none => customThemePoem env theme len g2

/-! ## The remote path (`_generate_with_openai`)

The remote API, the prompt it receives and the wall clock are external, so
API calls are modelled by an oracle indexed by issue order (`api`): each call
either returns content or raises with a message.  Uniform floating-point
draws (`random.uniform` / `random.random`) on the remote path are modelled
by the oracle `uni` with exact rational values.  The prompt text itself
(variation phrases, style/length instructions, system personas) influences
nothing observable in the embedding and is absorbed into the oracle. -/

/-- Result of one remote API call. -/
inductive ApiR
  | ok (content : Str)
  | exn (msg : Str)

structure REnv where
  api : ℕ → ApiR
  uni : ℕ → ℚ

/-- Which kind of sleep the retry logic performed, with the 0-based attempt
index that triggered it. -/
inductive SleepK
  | rateLimit (attempt : ℕ)
  | timeoutB (attempt : ℕ)
  | otherB (attempt : ℕ)
  | relevance (attempt : ℕ)
deriving DecidableEq, Repr

/-- Observable events of one `_generate_with_openai` run: primary API calls
(with attempt index), the focused retry call, and backoff sleeps. -/
inductive Ev
  | prim (attempt : ℕ)
  | focused
  | slept (d : ℚ) (k : SleepK)
deriving DecidableEq, Repr

/-- The post-generation relevance check (lines 203–209): tokens of the theme
longer than two characters must appear in the lower-cased poem, or, if there
are none, the whole lower-cased theme must. -/
def relevanceFound (theme poem : Str) : Bool :=
  let toks := themeTokens theme
  if !toks.isEmpty then toks.any (fun tok => isInfB tok (lowerL poem))
  else isInfB (lowerL theme) (lowerL poem)

/-- The `except` clause of the retry loop: classify `str(e).lower()` by
substring markers; retry via the continuation `k` (which receives the next
uniform-draw index) with the appropriate backoff sleep, or raise once
attempts are exhausted.  `a` is the 0-based attempt index
(`a < 2` is `attempt < max_retries - 1`). -/
def owErr (a u : ℕ) (uni : ℕ → ℚ) (mRaw : Str)
    (k : ℕ → Except Str Str × List Ev) : Except Str Str × List Ev :=
  let m := lowerL mRaw
  if isInfB (str "rate limit") m || isInfB (str "429") m then
    if a < 2 then
      let r := k (u + 1)
      (r.1, Ev.slept (1 * (2 : ℚ) ^ a + uni u) (.rateLimit a) :: r.2)
    else (.error (str "OpenAI rate limit exceeded"), [])
  else if isInfB (str "quota") m || isInfB (str "insufficient_quota") m then
    (.error (str "OpenAI quota exceeded - please check billing"), [])
  else if isInfB (str "timeout") m then
    if a < 2 then
      let r := k u
      (r.1, Ev.slept (1 * ((a : ℚ) + 1)) (.timeoutB a) :: r.2)
    else (.error (str "OpenAI API timeout"), [])
  else
    if a < 2 then
      let r := k u
      (r.1, Ev.slept 1 (.otherB a) :: r.2)
    else (.error (str "OpenAI API failed after 3 attempts: " ++ mRaw), [])

/-- The `for attempt in range(max_retries)` loop of `_generate_with_openai`.
`n` is the number of attempts left (`3 - a` at the top call), `a` the current
attempt index, `c` the index of the next API call, `u` the index of the next
uniform draw.  Each attempt consumes three uniform draws (temperature and the
two penalties) before calling the API. -/
def owAttempt (renv : REnv) (theme : Str) :
    (n : ℕ) → (a c u : ℕ) → Except Str Str × List Ev
  | 0, _, _, _ => (.error (str "All OpenAI API attempts failed"), [])
  | n + 1, a, c, u =>
    let u1 := u + 3
    let kont : ℕ → Except Str Str × List Ev :=
      fun u' => owAttempt renv theme n (a + 1) (c + 1) u'
    let step : Except Str Str × List Ev :=
      match renv.api c with
      | .exn m => owErr a u1 renv.uni m kont
      | .ok content =>
        if content = [] then
          owErr a u1 renv.uni (str "Empty response from OpenAI API") kont
        else
          let poem := pyStrip content
          if relevanceFound theme poem then
            if poem.length < 10 then
              owErr a u1 renv.uni (str "Generated poem is too short") kont
            else (.ok (cleanPoemText poem), [])
          else
            if a < 2 then
              let r := kont (u1 + 1)
              (r.1, Ev.slept (1 / 2 + renv.uni u1) (.relevance a) :: r.2)
            else
              match renv.api (c + 1) with
              | .ok fc =>
                if fc ≠ [] then (.ok (cleanPoemText (pyStrip fc)), [Ev.focused])
                else
                  if poem.length < 10 then
                    let r := owErr a u1 renv.uni (str "Generated poem is too short") kont
                    (r.1, Ev.focused :: r.2)
                  else (.ok (cleanPoemText poem), [Ev.focused])
              | .exn _ =>
                if poem.length < 10 then
                  let r := owErr a u1 renv.uni (str "Generated poem is too short") kont
                  (r.1, Ev.focused :: r.2)
                else (.ok (cleanPoemText poem), [Ev.focused])
    (step.1, Ev.prim a :: step.2)

/-- `PoemService._generate_with_openai` (`style` and `length` only shape the
prompt, which the API oracle absorbs). -/
def owRun (renv : REnv) (theme : Str) (_style : PStyle) (_len : PLength) :
    Except Str Str × List Ev :=
  owAttempt renv theme 3 0 0 0

/-! ## The orchestrator (`generate_poem`) and the endpoint report -/

/-- Which path produced the returned text (ghost information recorded by the
embedding, used to state the claims about the result's `method` report). -/
inductive GenMethod | openai | fallback
deriving DecidableEq, Repr

/-- `PoemService.generate_poem`: validate, try the remote path when a client
is configured, absorb any exception from it by falling back to the mock
engine.  `configured` models `self.client and self.openai_api_key` (the
client exists iff `__init__` accepted the key format).  The only error value
is the `ValueError("Theme cannot be empty")`. -/
def generatePoemSvc (configured : Bool) (renv : REnv) (menv : MockEnv)
    (theme : Str) (style : PStyle) (len : PLength) (g : PyRandom) :
    Except Str (Str × GenMethod) × PyRandom :=
  if pyStrip theme = [] then (.error (str "Theme cannot be empty"), g)
  else
    let th := pyStrip theme
    if configured then
      match (owRun renv th style len).1 with
      | .ok t => (.ok (t, .openai), g)
      | .error _ =>
        let (t, g') := mockPoem menv th style len g
        (.ok (t, .fallback), g')
    else
      let (t, g') := mockPoem menv th style len g
      (.ok (t, .fallback), g')

/-- The `generation_method` field assembled by the `/api/poems/generate`
endpoint in `app/main.py`:
`"openai" if poem_service.is_openai_available() else "fallback"` —
computed from availability alone.  `is_openai_available` is true exactly
when the client was initialized with a format-valid key, i.e. the same
`configured` capability the service consults. -/
def endpointGenerationMethod (configured : Bool) : GenMethod :=
  if configured then .openai else .fallback

/-! ## Auxiliary definitions used by statements and proofs -/

/-- The four case-variant placeholder forms of one word-bank category, as
substituted by `_generate_mock_poem` (lines 422–426). -/
def phVariants (cat : Str) : List Str :=
  [ph cat, ph (capitalizeL cat), ph (upperL cat), ph (titleL cat)]

/-- All case-variant placeholder forms of all word-bank categories, plus the
theme placeholder. -/
def allPatterns : List Str :=
  (wordBanks.map (fun cw => phVariants cw.1)).flatten ++ [str "{theme}"]

/-- All word-bank words. -/
def allWords : List Str := (wordBanks.map Prod.snd).flatten

/-- The conditions on a replacement word that guarantee a substitution can
neither keep nor create a placeholder occurrence: it contains no braces and
is not a factor of any placeholder form. -/
def WordOK (w : Str) : Prop :=
  '{' ∉ w ∧ '}' ∉ w ∧ ∀ p ∈ allPatterns, ¬ ContainsS p w

/-- Boolean check of `WordOK` over all words of all banks. -/
def wordsOKb : Bool :=
  allWords.all fun w =>
    !(decide ('{' ∈ w)) && !(decide ('}' ∈ w)) &&
      allPatterns.all fun p => !(isInfB w p)

/-- Boolean check of the shape facts of the placeholder forms: every one
starts with `'{'`, ends with `'}'`, and contains no newline, quote, comma
or space. -/
def patternsOKb : Bool :=
  allPatterns.all fun p =>
    (p.head? == some '{') && (p.getLast? == some '}') &&
      !(decide ('\n' ∈ p)) && !(decide ('"' ∈ p)) &&
      !(decide (',' ∈ p)) && !(decide (' ' ∈ p))

/-- Event classifiers for the remote-path trace. -/
def isPrimB : Ev → Bool
  | .prim _ => true
  | _ => false

def isFocB : Ev → Bool
  | .focused => true
  | _ => false

/-- The "consistent fill" shape asserted by the specification for one
category: all four case-variant placeholder forms replaced by one single
word.  (Stated from the spec's words, for comparison with `fillCategory`.) -/
def consistentFillCat (cat w t : Str) : Str :=
  replaceAll (ph (titleL cat)) w
    (replaceAll (ph (upperL cat)) w
      (replaceAll (ph (capitalizeL cat)) w
        (replaceAll (ph cat) w t)))

/-- The "consistent fill" shape over a whole bank list: one word per
category, the same word at every occurrence of every case variant of that
category's placeholder.  (Stated from the spec's words.) -/
def consistentFill : List (Str × List Str) → List Str → Str → Str
  | [], _, t => t
  | _ :: _, [], t => t
  | (cat, _) :: rest, w :: ws, t => consistentFill rest ws (consistentFillCat cat w t)

/-- The "consistent fill" shape asserted by claim C6 for the generic/custom
catalog: every occurrence of a (lower-case) placeholder replaced by the same
single word, one word per category.  (Stated from the spec's words.) -/
def consistentFillCustom : List (Str × List Str) → List Str → Str → Str
  | [], _, t => t
  | _ :: _, [], t => t
  | (cat, _) :: rest, w :: ws, t => consistentFillCustom rest ws (replaceAll (ph cat) w t)

/-- Oracle environments used by the concrete counterexample computations. -/
def env0 : MockEnv := ⟨fun _ _ => 0, fun _ => 0, 0⟩

/-- A draw oracle producing successive values `cnt + 1`, used to exhibit
distinct draws. -/
def envC : MockEnv := ⟨fun _ c => c + 1, fun _ => 0, 0⟩

def g0 : PyRandom := ⟨5, 7⟩

/-- A remote oracle whose every call raises a generic error. -/
def rFail : REnv := ⟨fun _ => .exn (str "boom"), fun _ => 0⟩

/-- A remote oracle whose every call returns a poem whose only
non-boilerplate line is three characters long. -/
def rShort : REnv := ⟨fun _ => .ok (str "Here's a poem about joy\nhey"), fun _ => 0⟩

/-- A remote oracle whose every call raises a rate-limit error. -/
def rRL : REnv := ⟨fun _ => .exn (str "rate limit"), fun _ => 0⟩

/-- Draw oracle of the claim C6 counterexample, producing the value
`3 * cnt` so that successive draws pick distinct words. -/
def envD : MockEnv := ⟨fun _ c => 3 * c, fun _ => 0, 0⟩

/-- Theme of the claim C6 counterexample: two copies of the `{adjective}`
placeholder, routed to the custom-theme generator. -/
def th6 : Str := str "{adjective} {adjective}"

/-- Segments of the template the C6 counterexample instantiates (custom
short template 1 with the quoted theme substituted), around its three
`{adjective}` occurrences. -/
def s61 : Str := str "Upon the theme of \""

def s62 : Str := str " "

def s63 : Str := str "\" I write,\nWith words that dance in "

def s64 : Str :=
  str " light.\nInspiration flows like morning dew,\nCreating verses fresh and new."

/-- The instantiated template of the C6 counterexample run. -/
def T6 : Str :=
  s61 ++ str "{adjective}" ++ s62 ++ str "{adjective}" ++ s63 ++
    str "{adjective}" ++ s64

/-! # Theorems

## Soundness of the executable string tests -/

theorem isPrefB_iff (p s : Str) : isPrefB p s = true ↔ StartsWith s p := by
  induction p generalizing s with
  | nil => simp [isPrefB, StartsWith]
  | cons a as ih =>
    cases s with
    | nil =>
      simp only [isPrefB, StartsWith]
      constructor
      · intro h; cases h
      · rintro ⟨t, ht⟩; cases ht
    | cons b bs =>
      simp only [isPrefB, Bool.and_eq_true, decide_eq_true_eq, ih, StartsWith]
      constructor
      · rintro ⟨rfl, t, rfl⟩; exact ⟨t, rfl⟩
      · rintro ⟨t, ht⟩
        injection ht with h1 h2
        exact ⟨h1.symm, t, h2⟩

theorem isInfB_iff (p s : Str) : isInfB p s = true ↔ ContainsS s p := by
  induction s with
  | nil =>
    simp only [isInfB, isPrefB_iff, StartsWith, ContainsS]
    constructor
    · rintro ⟨t, ht⟩
      exact ⟨[], t, by simpa using ht⟩
    · rintro ⟨u, v, huv⟩
      rcases List.append_eq_nil.mp (huv.symm) with ⟨h1, h2⟩
      rcases List.append_eq_nil.mp h1 with ⟨rfl, rfl⟩
      exact ⟨v, by simpa using huv⟩
  | cons c cs ih =>
    simp only [isInfB, Bool.or_eq_true, isPrefB_iff, ih, StartsWith, ContainsS]
    constructor
    · rintro (⟨t, ht⟩ | ⟨u, v, huv⟩)
      · exact ⟨[], t, by simpa using ht⟩
      · exact ⟨c :: u, v, by simp [huv]⟩
    · rintro ⟨u, v, huv⟩
      cases u with
      | nil => exact Or.inl ⟨v, by simpa using huv⟩
      | cons x xs =>
        injection huv with h1 h2
        exact Or.inr ⟨xs, v, h2⟩

theorem isSuffB_iff (p s : Str) : isSuffB p s = true ↔ EndsWith s p := by
  simp only [isSuffB, isPrefB_iff, StartsWith, EndsWith]
  constructor
  · rintro ⟨t, ht⟩
    refine ⟨t.reverse, ?_⟩
    have := congrArg List.reverse ht
    simpa using this
  · rintro ⟨t, rfl⟩
    exact ⟨t.reverse, by simp⟩

/-! ## Containment toolkit -/

theorem ContainsS.mono_left {u x : Str} (v : Str) (h : ContainsS u x) :
    ContainsS (u ++ v) x := by
  obtain ⟨a, b, rfl⟩ := h
  exact ⟨a, b ++ v, by simp⟩

theorem ContainsS.mono_right (u : Str) {v x : Str} (h : ContainsS v x) :
    ContainsS (u ++ v) x := by
  obtain ⟨a, b, rfl⟩ := h
  exact ⟨u ++ a, b, by simp⟩

theorem containsS_middle (u x v : Str) : ContainsS (u ++ x ++ v) x := ⟨u, v, rfl⟩

theorem containsS_self (x : Str) : ContainsS x x := ⟨[], [], by simp⟩

theorem ContainsS.trans {s x y : Str} (h1 : ContainsS s x) (h2 : ContainsS x y) :
    ContainsS s y := by
  obtain ⟨a, b, rfl⟩ := h1
  obtain ⟨c, d, rfl⟩ := h2
  exact ⟨a ++ c, d ++ b, by simp⟩

theorem ContainsS.cmem {s x : Str} (h : ContainsS s x) {c : Char} (hc : c ∈ x) : c ∈ s := by
  obtain ⟨a, b, rfl⟩ := h
  simp [hc]

theorem ContainsS.length_le {s x : Str} (h : ContainsS s x) : x.length ≤ s.length := by
  obtain ⟨a, b, rfl⟩ := h
  simp only [List.length_append]
  omega

theorem ContainsS.map {s x : Str} (f : Char → Char) (h : ContainsS s x) :
    ContainsS (s.map f) (x.map f) := by
  obtain ⟨a, b, rfl⟩ := h
  exact ⟨a.map f, b.map f, by simp⟩

theorem StartsWith.smem {s p : Str} (h : StartsWith s p) {c : Char} (hc : c ∈ p) : c ∈ s := by
  obtain ⟨t, rfl⟩ := h
  simp [hc]

theorem EndsWith.emem {s p : Str} (h : EndsWith s p) {c : Char} (hc : c ∈ p) : c ∈ s := by
  obtain ⟨t, rfl⟩ := h
  simp [hc]

theorem StartsWith.head_eq {s p : Str} (h : StartsWith s p) (hp : p ≠ []) :
    s.head? = p.head? := by
  obtain ⟨t, rfl⟩ := h
  cases p with
  | nil => exact absurd rfl hp
  | cons a as => rfl

theorem StartsWith.toCS {s p : Str} (h : StartsWith s p) : ContainsS s p := by
  obtain ⟨t, rfl⟩ := h
  exact ⟨[], t, rfl⟩

theorem EndsWith.toCSE {s p : Str} (h : EndsWith s p) : ContainsS s p := by
  obtain ⟨t, rfl⟩ := h
  exact ⟨t, [], by simp⟩

theorem head_mem {p : Str} {c : Char} (h : p.head? = some c) : c ∈ p := by
  cases p with
  | nil => cases h
  | cons a as =>
    injection h with h
    simp [h]

theorem getLast_mem {p : Str} {c : Char} (h : p.getLast? = some c) : c ∈ p := by
  have hr : p.reverse.head? = some c := by
    rw [List.head?_reverse]
    exact h
  have := head_mem hr
  simpa using this

/-- A nonempty prefix part of `p` starts with `p`'s head. -/
theorem head?_append_left {p₁ p₂ : Str} (h : p₁ ≠ []) :
    (p₁ ++ p₂).head? = p₁.head? := by
  cases p₁ with
  | nil => exact absurd rfl h
  | cons a as => rfl

/-- A nonempty suffix part of `p` ends with `p`'s last element. -/
theorem getLast?_append_right {p₁ p₂ : Str} (h : p₂ ≠ []) :
    (p₁ ++ p₂).getLast? = p₂.getLast? := by
  exact List.getLast?_append_of_ne_nil _ h

theorem startsWith_append_cases {x y p : Str} (h : StartsWith (x ++ y) p) :
    StartsWith x p ∨ ∃ p₂, p = x ++ p₂ ∧ StartsWith y p₂ := by
  obtain ⟨t, ht⟩ := h
  rcases List.append_eq_append_iff.mp ht with ⟨a', h1, h2⟩ | ⟨c', h1, h2⟩
  · exact Or.inr ⟨a', h1, ⟨t, h2⟩⟩
  · exact Or.inl ⟨c', h1⟩

theorem endsWith_append_cases {x y p : Str} (h : EndsWith (x ++ y) p) :
    EndsWith y p ∨ ∃ p₁, p = p₁ ++ y ∧ EndsWith x p₁ := by
  obtain ⟨t, ht⟩ := h
  rcases List.append_eq_append_iff.mp ht.symm with ⟨a', h1, h2⟩ | ⟨c', h1, h2⟩
  · rcases eq_or_ne a' [] with rfl | hne
    · exact Or.inl ⟨[], by simpa using h2.symm⟩
    · exact Or.inr ⟨a', h2, ⟨t, h1⟩⟩
  · exact Or.inl ⟨c', h2⟩

/-- Occurrence decomposition over an append: an occurrence of `p` in
`x ++ y` lies in `x`, lies in `y`, or straddles the junction. -/
theorem containsS_append_cases {x y p : Str} (h : ContainsS (x ++ y) p) :
    ContainsS x p ∨ ContainsS y p ∨
      ∃ p₁ p₂, p = p₁ ++ p₂ ∧ p₁ ≠ [] ∧ p₂ ≠ [] ∧ EndsWith x p₁ ∧ StartsWith y p₂ := by
  obtain ⟨a, b, hs⟩ := h
  have hs' : x ++ y = a ++ (p ++ b) := by simpa [List.append_assoc] using hs
  rcases List.append_eq_append_iff.mp hs' with ⟨a', h1, h2⟩ | ⟨c', h1, h2⟩
  · exact Or.inr (Or.inl ⟨a', b, by simpa [List.append_assoc] using h2⟩)
  · rcases List.append_eq_append_iff.mp h2 with ⟨d, h3, h4⟩ | ⟨d, h3, h4⟩
    · exact Or.inl ⟨a, d, by rw [h1, h3]; simp⟩
    · rcases eq_or_ne c' [] with rfl | hc'
      · refine Or.inr (Or.inl ⟨[], b, ?_⟩)
        have hpd : p = d := by simpa using h3
        rw [h4, hpd]
        simp
      · rcases eq_or_ne d [] with rfl | hd
        · refine Or.inl ⟨a, [], ?_⟩
          have hpc : p = c' := by simpa using h3
          rw [h1, hpc]
          simp
        · exact Or.inr (Or.inr ⟨c', d, h3, hc', hd, ⟨a, h1⟩, ⟨b, h4⟩⟩)

/-! ## `splitFirst`: soundness, completeness, minimality -/

theorem splitFirst_sound {p s u v : Str} (h : splitFirst p s = some (u, v)) :
    s = u ++ p ++ v := by
  induction s generalizing u v with
  | nil =>
    by_cases hp : p = []
    · simp only [splitFirst, if_pos hp, Option.some.injEq, Prod.mk.injEq] at h
      obtain ⟨rfl, rfl⟩ := h
      simp [hp]
    · simp [splitFirst, hp] at h
  | cons c cs ih =>
    rw [splitFirst] at h
    by_cases hpre : isPrefB p (c :: cs) = true
    · rw [if_pos hpre] at h
      injection h with h'
      obtain ⟨t, hst⟩ := (isPrefB_iff p (c :: cs)).mp hpre
      injection h' with h1 h2
      subst h1
      rw [← h2, hst, List.drop_left]
      simp
    · rw [if_neg hpre] at h
      cases hsf : splitFirst p cs with
      | none => rw [hsf] at h; cases h
      | some uv =>
        obtain ⟨u', v'⟩ := uv
        rw [hsf] at h
        injection h with h'
        injection h' with h1 h2
        subst h1; subst h2
        have := ih hsf
        simp [this]

theorem splitFirst_none {p s : Str} (h : splitFirst p s = none) : ¬ ContainsS s p := by
  induction s with
  | nil =>
    by_cases hp : p = []
    · simp [splitFirst, hp] at h
    · rintro ⟨u, v, huv⟩
      rcases List.append_eq_nil.mp huv.symm with ⟨h1, _⟩
      rcases List.append_eq_nil.mp h1 with ⟨_, rfl⟩
      exact hp rfl
  | cons c cs ih =>
    rw [splitFirst] at h
    by_cases hpre : isPrefB p (c :: cs) = true
    · rw [if_pos hpre] at h; cases h
    · rw [if_neg hpre] at h
      cases hsf : splitFirst p cs with
      | none =>
        rintro ⟨u, v, huv⟩
        cases u with
        | nil =>
          exact hpre ((isPrefB_iff p (c :: cs)).mpr ⟨v, by simpa using huv⟩)
        | cons z zs =>
          injection huv with h1 h2
          exact ih hsf ⟨zs, v, h2⟩
      | some uv =>
        obtain ⟨u', v'⟩ := uv
        rw [hsf] at h
        cases h

theorem splitFirst_isSome_iff {p s : Str} :
    (splitFirst p s).isSome = true ↔ ContainsS s p := by
  cases h : splitFirst p s with
  | none =>
    simp only [Option.isSome_none]
    constructor
    · intro hf; cases hf
    · intro hc; exact absurd hc (splitFirst_none h)
  | some uv =>
    obtain ⟨u, v⟩ := uv
    simp only [Option.isSome_some, true_iff]
    exact (splitFirst_sound h) ▸ containsS_middle u p v

theorem splitFirst_min {p s u v : Str} (hp : p ≠ []) (h : splitFirst p s = some (u, v)) :
    ¬ ContainsS u p := by
  induction s generalizing u v with
  | nil =>
    simp [splitFirst, hp] at h
  | cons c cs ih =>
    rw [splitFirst] at h
    by_cases hpre : isPrefB p (c :: cs) = true
    · rw [if_pos hpre] at h
      injection h with h'
      injection h' with h1 h2
      subst h1
      rintro ⟨a, b, hab⟩
      rcases List.append_eq_nil.mp hab.symm with ⟨h3, _⟩
      rcases List.append_eq_nil.mp h3 with ⟨_, rfl⟩
      exact hp rfl
    · rw [if_neg hpre] at h
      cases hsf : splitFirst p cs with
      | none => rw [hsf] at h; cases h
      | some uv =>
        obtain ⟨u', v'⟩ := uv
        rw [hsf] at h
        injection h with h'
        injection h' with h1 h2
        subst h1
        rintro ⟨a, b, hab⟩
        cases a with
        | nil =>
          have hcs : cs = u' ++ p ++ v' := splitFirst_sound hsf
          have hcu : c :: u' = p ++ b := by simpa using hab
          refine hpre ((isPrefB_iff p (c :: cs)).mpr ⟨b ++ p ++ v', ?_⟩)
          rw [hcs]
          have : c :: (u' ++ p ++ v') = (c :: u') ++ p ++ v' := by simp
          rw [this, hcu]
          simp
        | cons z zs =>
          injection hab with h1 h2
          exact ih hsf ⟨zs, b, h2⟩

theorem splitFirst_len {p s u v : Str} (hp : p ≠ []) (h : splitFirst p s = some (u, v)) :
    v.length < s.length := by
  have hs := splitFirst_sound h
  have hlp : 0 < p.length := List.length_pos.mpr hp
  rw [hs]
  simp only [List.length_append]
  omega

/-! ## The no-straddle lemmas -/

/-- No nonempty suffix of `p` is a prefix of `w`, when `p`'s last character
does not occur in `w`. -/
theorem noCross_of_last {p w : Str} {lc : Char} (hl : p.getLast? = some lc) (hw : lc ∉ w) :
    ∀ p₂, p₂ ≠ [] → EndsWith p p₂ → ¬ StartsWith w p₂ := by
  intro p₂ hne hsuf hpre
  obtain ⟨t, rfl⟩ := hsuf
  rw [getLast?_append_right hne] at hl
  exact hw (hpre.smem (getLast_mem hl))

/-- No nonempty suffix of `p` is a prefix of `w`, when `w`'s head character
does not occur in `p`. -/
theorem noCross_of_head {p w : Str} {wc : Char} (hwh : w.head? = some wc) (hwp : wc ∉ p) :
    ∀ p₂, p₂ ≠ [] → EndsWith p p₂ → ¬ StartsWith w p₂ := by
  intro p₂ hne hsuf hpre
  have h1 := hpre.head_eq hne
  rw [hwh] at h1
  exact hwp (hsuf.emem (head_mem h1.symm))

/-- The no-straddle lemma: an occurrence of a pattern `p` in `u ++ w ++ v`
lies wholly in `u` or wholly in `v`, provided `p`'s head does not occur in
`w`, `w` is not a factor of `p`, and no nonempty suffix of `p` is a prefix
of `w`. -/
theorem containsS_three {u w v p : Str} {hc : Char}
    (hph : p.head? = some hc) (hhw : hc ∉ w)
    (hwp : ¬ ContainsS p w)
    (hcross : ∀ p₂, p₂ ≠ [] → EndsWith p p₂ → ¬ StartsWith w p₂)
    (h : ContainsS (u ++ w ++ v) p) :
    ContainsS u p ∨ ContainsS v p := by
  have h' : ContainsS (u ++ (w ++ v)) p := by simpa [List.append_assoc] using h
  rcases containsS_append_cases h' with h1 | h1 | ⟨p₁, p₂, hp, hp1, hp2, hsuf, hpre⟩
  · exact Or.inl h1
  · rcases containsS_append_cases h1 with h2 | h2 | ⟨q₁, q₂, hq, hq1, hq2, hsufw, _⟩
    · exact absurd (h2.cmem (head_mem hph)) hhw
    · exact Or.inr h2
    · have hq1h : q₁.head? = some hc := by
        rw [← @head?_append_left _ q₂ hq1, ← hq]
        exact hph
      exact absurd (hsufw.emem (head_mem hq1h)) hhw
  · rcases startsWith_append_cases hpre with h2 | ⟨p₃, hp3, _⟩
    · exact absurd h2 (hcross p₂ hp2 ⟨p₁, hp⟩)
    · exact absurd (⟨p₁, p₃, by rw [hp, hp3]; simp⟩ : ContainsS p w) hwp

/-- Anchor survival: an occurrence of `x` in `u ++ p ++ v` lies wholly in
`u` or wholly in `v`, provided `x`'s head does not occur in `p` and `p`'s
head does not occur in `x`. -/
theorem anchor_step {u p v x : Str} {xc pc : Char}
    (hxh : x.head? = some xc) (hxc : xc ∉ p)
    (hph : p.head? = some pc) (hpc : pc ∉ x)
    (h : ContainsS (u ++ p ++ v) x) :
    ContainsS u x ∨ ContainsS v x := by
  apply containsS_three hxh hxc ?_ ?_ h
  · intro hcon
    exact hpc (hcon.cmem (head_mem hph))
  · exact noCross_of_head hph hpc

/-! ## Replacement lemmas -/

/-- If the pattern occurs, the replacement text occurs in the result. -/
theorem replaceAllF_gives_r {p r s : Str} {fuel : ℕ}
    (h : (splitFirst p s).isSome = true) :
    ContainsS (replaceAllF p r (fuel + 1) s) r := by
  cases hsf : splitFirst p s with
  | none => rw [hsf] at h; cases h
  | some uv =>
    obtain ⟨u, v⟩ := uv
    simp only [replaceAllF, hsf]
    exact containsS_middle u r _

/-- The replaced pattern does not occur in the result, with enough fuel,
when the replacement contains neither end character of the pattern and is
not a factor of it. -/
theorem replaceAllF_removes {p r : Str} {hc lc : Char}
    (hph : p.head? = some hc) (hpl : p.getLast? = some lc)
    (hhr : hc ∉ r) (hlr : lc ∉ r) (hrp : ¬ ContainsS p r) :
    ∀ {fuel : ℕ} {s : Str}, s.length ≤ fuel →
      ¬ ContainsS (replaceAllF p r fuel s) p := by
  have hp : p ≠ [] := by intro h; rw [h] at hph; cases hph
  intro fuel
  induction fuel with
  | zero =>
    intro s hfuel
    have hs : s = [] := List.length_eq_zero.mp (Nat.le_zero.mp hfuel)
    subst hs
    rintro ⟨a, b, hab⟩
    rcases List.append_eq_nil.mp hab.symm with ⟨h3, _⟩
    rcases List.append_eq_nil.mp h3 with ⟨_, rfl⟩
    exact hp rfl
  | succ n ih =>
    intro s hfuel
    cases hsf : splitFirst p s with
    | none => simp only [replaceAllF, hsf]; exact splitFirst_none hsf
    | some uv =>
      obtain ⟨u, v⟩ := uv
      simp only [replaceAllF, hsf]
      intro hcon
      rcases containsS_three hph hhr hrp (noCross_of_last hpl hlr) hcon with h1 | h1
      · exact splitFirst_min hp hsf h1
      · have hv : v.length ≤ n := by
          have := splitFirst_len hp hsf
          omega
        exact ih hv h1

/-- Absence of a placeholder `q` is preserved by replacements with safe
text `r`. -/
theorem replaceAllF_preserve_not {p r q : Str} {hc : Char}
    (hqh : q.head? = some hc) (hhr : hc ∉ r) (hqr : ¬ ContainsS q r)
    (hcross : ∀ q₂, q₂ ≠ [] → EndsWith q q₂ → ¬ StartsWith r q₂) :
    ∀ {fuel : ℕ} {s : Str}, ¬ ContainsS s q →
      ¬ ContainsS (replaceAllF p r fuel s) q := by
  intro fuel
  induction fuel with
  | zero => intro s hnot; exact hnot
  | succ n ih =>
    intro s hnot
    cases hsf : splitFirst p s with
    | none => simp only [replaceAllF, hsf]; exact hnot
    | some uv =>
      obtain ⟨u, v⟩ := uv
      simp only [replaceAllF, hsf]
      intro hcon
      have hs := splitFirst_sound hsf
      rcases containsS_three hqh hhr hqr hcross hcon with h1 | h1
      · refine hnot ?_
        rw [hs]
        have := h1.mono_left (p ++ v)
        simpa [List.append_assoc] using this
      · have hnv : ¬ ContainsS v q := fun hcv => by
          refine hnot ?_
          rw [hs]
          exact ContainsS.mono_right (u ++ p) hcv
        exact ih hnv h1

/-- An anchor `x` whose head cannot occur in the pattern, and which does not
contain the pattern's head, survives all replacements. -/
theorem replaceAllF_anchor {p r x : Str} {xc pc : Char}
    (hxh : x.head? = some xc) (hxc : xc ∉ p)
    (hph : p.head? = some pc) (hpc : pc ∉ x) :
    ∀ {fuel : ℕ} {s : Str}, ContainsS s x →
      ContainsS (replaceAllF p r fuel s) x := by
  intro fuel
  induction fuel with
  | zero => intro s h; exact h
  | succ n ih =>
    intro s h
    cases hsf : splitFirst p s with
    | none => simp only [replaceAllF, hsf]; exact h
    | some uv =>
      obtain ⟨u, v⟩ := uv
      simp only [replaceAllF, hsf]
      have hs := splitFirst_sound hsf
      rcases anchor_step hxh hxc hph hpc (hs ▸ h) with h1 | h1
      · exact (h1.mono_left r).mono_left _
      · exact ContainsS.mono_right _ (ih h1)

/-! ## Occurrence counting -/

theorem occCountF_stable {p : Str} (hp : p ≠ []) :
    ∀ (fuel : ℕ) (s : Str), s.length ≤ fuel → occCountF p fuel s = occCount p s := by
  intro fuel
  induction fuel using Nat.strong_induction_on with
  | _ fuel ih =>
    cases fuel with
    | zero =>
      intro s hs
      have : s = [] := List.length_eq_zero.mp (Nat.le_zero.mp hs)
      subst this
      rfl
    | succ n =>
      intro s hs
      cases hsf : splitFirst p s with
      | none =>
        cases s with
        | nil => simp only [occCountF, occCount, List.length_nil, hsf]
        | cons c cs => simp only [occCountF, occCount, List.length_cons, hsf]
      | some uv =>
        obtain ⟨u, v⟩ := uv
        have hs0 : s ≠ [] := by
          intro h0
          subst h0
          simp [splitFirst, hp] at hsf
        obtain ⟨c, cs, rfl⟩ := List.exists_cons_of_ne_nil hs0
        have hvlen := splitFirst_len hp hsf
        simp only [List.length_cons] at hvlen hs
        simp only [occCountF, occCount, List.length_cons, hsf]
        rw [ih n (by omega) v (by omega), ih cs.length (by omega) v (by omega)]

theorem occCount_some {p s u v : Str} (hp : p ≠ []) (h : splitFirst p s = some (u, v)) :
    occCount p s = occCount p v + 1 := by
  have hs0 : s ≠ [] := by
    intro h0
    subst h0
    simp [splitFirst, hp] at h
  obtain ⟨c, cs, rfl⟩ := List.exists_cons_of_ne_nil hs0
  have hvlen := splitFirst_len hp h
  simp only [List.length_cons] at hvlen
  simp only [occCount, List.length_cons, occCountF, h]
  rw [occCountF_stable hp cs.length v (by omega)]
  rfl

theorem occCount_zero_iff {p s : Str} (hp : p ≠ []) :
    occCount p s = 0 ↔ splitFirst p s = none := by
  cases hsf : splitFirst p s with
  | none =>
    simp only [iff_true]
    cases s with
    | nil => rfl
    | cons c cs => simp only [occCount, List.length_cons, occCountF, hsf]
  | some uv =>
    obtain ⟨u, v⟩ := uv
    have hocc := occCount_some hp hsf
    constructor
    · intro h0
      rw [hocc] at h0
      exact absurd h0 (by omega)
    · intro hnone
      cases hnone

/-! ## `splitFirst` skips blocks in which no occurrence can start -/

theorem splitFirst_skip {p v : Str} (x : Str)
    (h : ∀ t₁ t₂, x = t₁ ++ t₂ → t₂ ≠ [] → ¬ StartsWith (t₂ ++ v) p) :
    splitFirst p (x ++ v) = (splitFirst p v).map (fun uv => (x ++ uv.1, uv.2)) := by
  induction x with
  | nil =>
    simp only [List.nil_append]
    cases splitFirst p v with
    | none => rfl
    | some uv => simp
  | cons c x' ih =>
    have hnp : ¬ StartsWith ((c :: x') ++ v) p := h [] (c :: x') rfl (by simp)
    have hpre : ¬ isPrefB p (c :: (x' ++ v)) = true := fun hb =>
      hnp ((isPrefB_iff _ _).mp hb)
    show splitFirst p (c :: (x' ++ v)) = _
    rw [splitFirst, if_neg hpre,
      ih (fun t₁ t₂ ht hne => h (c :: t₁) t₂ (by simp [ht]) hne)]
    cases splitFirst p v with
    | none => rfl
    | some uv => rfl

/-- After one custom-loop substitution `s = u ++ p ++ v ↦ u ++ w ++ v`, no
occurrence of `p` starts before the `v` part. -/
theorem skip_hyp {p u v w s : Str} {hc lc : Char}
    (hph : p.head? = some hc) (hpl : p.getLast? = some lc)
    (hhw : hc ∉ w) (hlw : lc ∉ w) (hwp : ¬ ContainsS p w)
    (hsf : splitFirst p s = some (u, v)) :
    ∀ t₁ t₂, u ++ w = t₁ ++ t₂ → t₂ ≠ [] → ¬ StartsWith (t₂ ++ v) p := by
  have hp : p ≠ [] := by intro h; rw [h] at hph; cases hph
  intro t₁ t₂ ht hne hpre
  rcases List.append_eq_append_iff.mp ht with ⟨m, h1, h2⟩ | ⟨m, h1, h2⟩
  · rcases startsWith_append_cases hpre with h3 | ⟨p₃, hp3, _⟩
    · exact hhw (EndsWith.emem ⟨m, h2⟩ (h3.smem (head_mem hph)))
    · have ht2h : t₂.head? = some hc := by
        rw [← @head?_append_left _ p₃ hne, ← hp3]
        exact hph
      exact hhw (EndsWith.emem ⟨m, h2⟩ (head_mem ht2h))
  · have hpre' : StartsWith (m ++ (w ++ v)) p := by
      have := h2 ▸ hpre
      simpa [List.append_assoc] using this
    rcases startsWith_append_cases hpre' with h3 | ⟨p₃, hp3, hpre3⟩
    · obtain ⟨t, hmt⟩ := h3
      exact splitFirst_min hp hsf ⟨t₁, t, by rw [h1, hmt]; simp⟩
    · rcases eq_or_ne p₃ [] with rfl | hp3ne
      · have hmp : m = p := by simpa using hp3.symm
        exact splitFirst_min hp hsf ⟨t₁, [], by rw [h1, hmp]; simp⟩
      · rcases startsWith_append_cases hpre3 with h4 | ⟨p₄, hp4, _⟩
        · exact (noCross_of_last hpl hlw) p₃ hp3ne ⟨m, hp3⟩ h4
        · exact hwp ⟨m, p₄, by rw [hp3, hp4]; simp⟩

/-- Occurrence count after one custom-loop substitution: exactly the
occurrences of the remainder. -/
theorem occCount_sub {p u v w s : Str} {hc lc : Char}
    (hph : p.head? = some hc) (hpl : p.getLast? = some lc)
    (hhw : hc ∉ w) (hlw : lc ∉ w) (hwp : ¬ ContainsS p w)
    (hsf : splitFirst p s = some (u, v)) :
    occCount p (u ++ w ++ v) = occCount p v := by
  have hp : p ≠ [] := by intro h; rw [h] at hph; cases hph
  have hskip := @splitFirst_skip p v (u ++ w)
    (skip_hyp hph hpl hhw hlw hwp hsf)
  cases hv : splitFirst p v with
  | none =>
    have h0 : splitFirst p (u ++ w ++ v) = none := by rw [hskip, hv]; rfl
    rw [(occCount_zero_iff hp).mpr h0, (occCount_zero_iff hp).mpr hv]
  | some ab =>
    obtain ⟨a, b⟩ := ab
    have h1 : splitFirst p (u ++ w ++ v) = some (u ++ w ++ a, b) := by
      rw [hskip, hv]; rfl
    rw [occCount_some hp h1, occCount_some hp hv]

/-! ## Facts about the program's word banks and placeholder forms -/

theorem pychoice_mem (env : MockEnv) (l : List Str) (g : PyRandom) (hl : l ≠ []) :
    (pychoice env l g).1 ∈ l := by
  have hlen : 0 < l.length := List.length_pos.mpr hl
  have hlt : env.f g.seedv g.cnt % l.length < l.length := Nat.mod_lt _ hlen
  simp only [pychoice, draw]
  rw [List.getD_eq_getElem l [] hlt]
  exact List.getElem_mem hlt

theorem wordsOK : ∀ w ∈ allWords, WordOK w := by
  intro w hw
  have hb : wordsOKb = true := by decide
  rw [wordsOKb, List.all_eq_true] at hb
  have h := hb w hw
  simp only [Bool.and_eq_true, Bool.not_eq_true', decide_eq_false_iff_not,
    List.all_eq_true] at h
  obtain ⟨⟨h1, h2⟩, h3⟩ := h
  refine ⟨h1, h2, fun p hp hc => ?_⟩
  have h4 := h3 p hp
  exact absurd ((isInfB_iff w p).mpr hc) (by simp [h4])

theorem patternsOK : ∀ p ∈ allPatterns,
    p.head? = some '{' ∧ p.getLast? = some '}' ∧
    '\n' ∉ p ∧ '"' ∉ p ∧ ',' ∉ p ∧ ' ' ∉ p := by
  intro p hp
  have hb : patternsOKb = true := by decide
  rw [patternsOKb, List.all_eq_true] at hb
  have h := hb p hp
  simp only [Bool.and_eq_true, beq_iff_eq, Bool.not_eq_true',
    decide_eq_false_iff_not] at h
  tauto

theorem occCountF_le (p : Str) : ∀ (fuel : ℕ) (s : Str), occCountF p fuel s ≤ fuel := by
  intro fuel
  induction fuel with
  | zero => intro s; exact Nat.le_refl 0
  | succ n ih =>
    intro s
    cases hsf : splitFirst p s with
    | none => simp only [occCountF, hsf]; omega
    | some uv =>
      obtain ⟨u, v⟩ := uv
      simp only [occCountF, hsf]
      have := ih v
      omega

theorem occCount_le_length (p s : Str) : occCount p s ≤ s.length :=
  occCountF_le p s.length s

/-! ## The custom-theme loop: completeness, preservation, anchors -/

theorem fillLoop_complete {env : MockEnv} {p : Str} {words : List Str}
    (hph : p.head? = some '{') (hpl : p.getLast? = some '}')
    (hpmem : p ∈ allPatterns)
    (hws : words ≠ []) (hw : ∀ w ∈ words, WordOK w) :
    ∀ {fuel : ℕ} {t : Str} {g : PyRandom}, occCount p t ≤ fuel →
      ¬ ContainsS (fillLoop env p words fuel t g).1 p := by
  have hp : p ≠ [] := fun h => by rw [h] at hph; cases hph
  intro fuel
  induction fuel with
  | zero =>
    intro t g hocc
    exact splitFirst_none ((occCount_zero_iff hp).mp (Nat.le_zero.mp hocc))
  | succ n ih =>
    intro t g hocc
    rw [fillLoop]
    cases hsf : splitFirst p t with
    | none => simp only [hsf]; exact splitFirst_none hsf
    | some uv =>
      obtain ⟨u, v⟩ := uv
      simp only [hsf]
      obtain ⟨hw1, hw2, hw3⟩ := hw _ (pychoice_mem env words g hws)
      apply ih
      have h1 := occCount_sub hph hpl hw1 hw2 (hw3 p hpmem) hsf
      have h2 := occCount_some hp hsf
      omega

theorem fillLoop_preserve_not {env : MockEnv} {p q : Str} {words : List Str}
    (hqh : q.head? = some '{') (hql : q.getLast? = some '}')
    (hqmem : q ∈ allPatterns)
    (hws : words ≠ []) (hw : ∀ w ∈ words, WordOK w) :
    ∀ {fuel : ℕ} {t : Str} {g : PyRandom}, ¬ ContainsS t q →
      ¬ ContainsS (fillLoop env p words fuel t g).1 q := by
  intro fuel
  induction fuel with
  | zero => intro t g h; exact h
  | succ n ih =>
    intro t g h
    rw [fillLoop]
    cases hsf : splitFirst p t with
    | none => simp only [hsf]; exact h
    | some uv =>
      obtain ⟨u, v⟩ := uv
      simp only [hsf]
      obtain ⟨hw1, hw2, hw3⟩ := hw _ (pychoice_mem env words g hws)
      apply ih
      intro hcon
      have hs := splitFirst_sound hsf
      rcases containsS_three hqh hw1 (hw3 q hqmem) (noCross_of_last hql hw2) hcon with h1 | h1
      · refine h ?_
        rw [hs]
        simpa [List.append_assoc] using h1.mono_left (p ++ v)
      · refine h ?_
        rw [hs]
        exact ContainsS.mono_right (u ++ p) h1

theorem fillLoop_anchor {env : MockEnv} {p x : Str} {words : List Str} {xc : Char}
    (hxh : x.head? = some xc) (hxc : xc ∉ p) (hph : p.head? = some '{')
    (hbrace : '{' ∉ x) :
    ∀ {fuel : ℕ} {t : Str} {g : PyRandom}, ContainsS t x →
      ContainsS (fillLoop env p words fuel t g).1 x := by
  intro fuel
  induction fuel with
  | zero => intro t g h; exact h
  | succ n ih =>
    intro t g h
    rw [fillLoop]
    cases hsf : splitFirst p t with
    | none => simp only [hsf]; exact h
    | some uv =>
      obtain ⟨u, v⟩ := uv
      simp only [hsf]
      apply ih
      have hs := splitFirst_sound hsf
      rcases anchor_step hxh hxc hph hbrace (hs ▸ h) with h1 | h1
      · exact (h1.mono_left _).mono_left _
      · exact ContainsS.mono_right _ h1

theorem fillLoops_all {env : MockEnv} :
    ∀ (banks : List (Str × List Str)) {t : Str} {g : PyRandom} {q : Str},
      q ∈ allPatterns →
      (∀ cw ∈ banks, cw.2 ≠ [] ∧ (∀ w ∈ cw.2, WordOK w) ∧ ph cw.1 ∈ allPatterns) →
      ((∃ cw ∈ banks, q = ph cw.1) ∨ ¬ ContainsS t q) →
      ¬ ContainsS (fillLoops env banks t g).1 q := by
  intro banks
  induction banks with
  | nil =>
    intro t g q _ _ hcase
    rcases hcase with ⟨cw, hcw, _⟩ | h
    · exact absurd hcw (List.not_mem_nil cw)
    · exact h
  | cons cw rest ih =>
    obtain ⟨cat, ws⟩ := cw
    intro t g q hq hb hcase
    obtain ⟨hws, hw, hphmem⟩ := hb (cat, ws) (by simp)
    obtain ⟨hqh, hql, -, -, -, -⟩ := patternsOK q hq
    obtain ⟨hch, hcl, -, -, -, -⟩ := patternsOK (ph cat) hphmem
    rw [fillLoops]
    by_cases hqc : q = ph cat
    · refine ih hq (fun cw' hcw' => hb cw' (by simp [hcw'])) (Or.inr ?_)
      subst hqc
      exact fillLoop_complete hqh hql hphmem hws hw (occCount_le_length _ _)
    · rcases hcase with ⟨cw', hcw', hq'⟩ | hnot
      · rcases List.mem_cons.mp hcw' with heq | hmem
        · rw [heq] at hq'
          exact absurd hq' hqc
        · exact ih hq (fun cw'' hcw'' => hb cw'' (by simp [hcw''])) (Or.inl ⟨cw', hmem, hq'⟩)
      · exact ih hq (fun cw'' hcw'' => hb cw'' (by simp [hcw'']))
          (Or.inr (fillLoop_preserve_not hqh hql hq hws hw hnot))

theorem fillLoops_anchor {env : MockEnv} {x : Str} {xc : Char}
    (hxh : x.head? = some xc) (hbrace : '{' ∉ x) :
    ∀ (banks : List (Str × List Str)) {t : Str} {g : PyRandom},
      (∀ cw ∈ banks, xc ∉ ph cw.1 ∧ (ph cw.1).head? = some '{') →
      ContainsS t x → ContainsS (fillLoops env banks t g).1 x := by
  intro banks
  induction banks with
  | nil => intro t g _ h; exact h
  | cons cw rest ih =>
    obtain ⟨cat, ws⟩ := cw
    intro t g hb h
    obtain ⟨h1, h2⟩ := hb (cat, ws) (by simp)
    rw [fillLoops]
    exact ih (fun cw' hcw' => hb cw' (by simp [hcw'])) (fillLoop_anchor hxh h1 h2 hbrace h)

/-! ## The themed-template fill: shape, removal, preservation, anchors -/

/-- One category step substitutes all four case-variant placeholder forms by
one single word drawn from the category's bank. -/
theorem fillCategory_shape (env : MockEnv) (cat : Str) (words : List Str)
    (t : Str) (g : PyRandom) (hws : words ≠ []) :
    ∃ w ∈ words, (fillCategory env cat words t g).1 = consistentFillCat cat w t := by
  refine ⟨_, ?_, rfl⟩
  have hm := pychoice_mem env [(pychoice env words g).1,
    (pychoice env words (pychoice env words g).2).1,
    (pychoice env words (pychoice env words (pychoice env words g).2).2).1]
    (pychoice env words (pychoice env words (pychoice env words g).2).2).2 (by simp)
  simp only [List.mem_cons, List.not_mem_nil, or_false] at hm
  rcases hm with h | h | h <;> rw [h]
  · exact pychoice_mem env words g hws
  · exact pychoice_mem env words _ hws
  · exact pychoice_mem env words _ hws

theorem fillCategory_preserve_not {env : MockEnv} {cat q : Str} {words : List Str}
    {t : Str} {g : PyRandom}
    (hqh : q.head? = some '{') (hql : q.getLast? = some '}') (hqmem : q ∈ allPatterns)
    (hws : words ≠ []) (hw : ∀ w ∈ words, WordOK w)
    (hnot : ¬ ContainsS t q) :
    ¬ ContainsS (fillCategory env cat words t g).1 q := by
  obtain ⟨w0, hw0, hsh⟩ := fillCategory_shape env cat words t g hws
  rw [hsh]
  simp only [consistentFillCat]
  obtain ⟨h1, h2, h3⟩ := hw w0 hw0
  have hpres : ∀ p s, ¬ ContainsS s q → ¬ ContainsS (replaceAll p w0 s) q :=
    fun p s hn => replaceAllF_preserve_not hqh h1 (h3 q hqmem) (noCross_of_last hql h2) hn
  exact hpres _ _ (hpres _ _ (hpres _ _ (hpres _ _ hnot)))

theorem fillCategory_removes {env : MockEnv} {cat q : Str} {words : List Str}
    {t : Str} {g : PyRandom}
    (hq : q ∈ phVariants cat)
    (hvars : ∀ v ∈ phVariants cat, v ∈ allPatterns)
    (hws : words ≠ []) (hw : ∀ w ∈ words, WordOK w) :
    ¬ ContainsS (fillCategory env cat words t g).1 q := by
  obtain ⟨w0, hw0, hsh⟩ := fillCategory_shape env cat words t g hws
  rw [hsh]
  simp only [consistentFillCat]
  obtain ⟨h1, h2, h3⟩ := hw w0 hw0
  have hqmem := hvars q hq
  obtain ⟨hqh, hql, -, -, -, -⟩ := patternsOK q hqmem
  have hrem : ∀ s : Str, ¬ ContainsS (replaceAll q w0 s) q := fun s =>
    replaceAllF_removes hqh hql h1 h2 (h3 q hqmem) (Nat.le_succ _)
  have hpres : ∀ p s, ¬ ContainsS s q → ¬ ContainsS (replaceAll p w0 s) q :=
    fun p s hn => replaceAllF_preserve_not hqh h1 (h3 q hqmem) (noCross_of_last hql h2) hn
  simp only [phVariants, List.mem_cons, List.not_mem_nil, or_false] at hq
  rcases hq with rfl | rfl | rfl | rfl
  · exact hpres _ _ (hpres _ _ (hpres _ _ (hrem _)))
  · exact hpres _ _ (hpres _ _ (hrem _))
  · exact hpres _ _ (hrem _)
  · exact hrem _

theorem fillCategory_anchor {env : MockEnv} {cat x : Str} {words : List Str}
    {t : Str} {g : PyRandom} {xc : Char}
    (hxh : x.head? = some xc) (hbrace : '{' ∉ x)
    (hvars : ∀ v ∈ phVariants cat, xc ∉ v ∧ v.head? = some '{')
    (h : ContainsS t x) :
    ContainsS (fillCategory env cat words t g).1 x := by
  obtain ⟨hv1, hh1⟩ := hvars (ph cat) (by simp [phVariants])
  obtain ⟨hv2, hh2⟩ := hvars (ph (capitalizeL cat)) (by simp [phVariants])
  obtain ⟨hv3, hh3⟩ := hvars (ph (upperL cat)) (by simp [phVariants])
  obtain ⟨hv4, hh4⟩ := hvars (ph (titleL cat)) (by simp [phVariants])
  show ContainsS (consistentFillCat cat _ t) x
  simp only [consistentFillCat]
  exact replaceAllF_anchor hxh hv4 hh4 hbrace
    (replaceAllF_anchor hxh hv3 hh3 hbrace
      (replaceAllF_anchor hxh hv2 hh2 hbrace
        (replaceAllF_anchor hxh hv1 hh1 hbrace h)))

theorem fillCats_consistent (env : MockEnv) :
    ∀ (banks : List (Str × List Str)) (t : Str) (g : PyRandom),
      (∀ cw ∈ banks, cw.2 ≠ []) →
      ∃ ws, List.Forall₂ (fun (w : Str) (cw : Str × List Str) => w ∈ cw.2) ws banks ∧
        (fillCats env banks t g).1 = consistentFill banks ws t := by
  intro banks
  induction banks with
  | nil => intro t g _; exact ⟨[], List.Forall₂.nil, rfl⟩
  | cons cw rest ih =>
    obtain ⟨cat, wsb⟩ := cw
    intro t g hb
    obtain ⟨w0, hw0, hsh⟩ := fillCategory_shape env cat wsb t g (hb (cat, wsb) (by simp))
    obtain ⟨ws, hf, hrest⟩ := ih (fillCategory env cat wsb t g).1
      (fillCategory env cat wsb t g).2 (fun cw' h' => hb cw' (by simp [h']))
    refine ⟨w0 :: ws, List.Forall₂.cons hw0 hf, ?_⟩
    show (fillCats env rest (fillCategory env cat wsb t g).1
      (fillCategory env cat wsb t g).2).1 = _
    rw [hrest, hsh]
    rfl

theorem fillCats_all {env : MockEnv} :
    ∀ (banks : List (Str × List Str)) {t : Str} {g : PyRandom} {q : Str},
      q ∈ allPatterns →
      (∀ cw ∈ banks, cw.2 ≠ [] ∧ (∀ w ∈ cw.2, WordOK w) ∧
        ∀ v ∈ phVariants cw.1, v ∈ allPatterns) →
      ((∃ cw ∈ banks, q ∈ phVariants cw.1) ∨ ¬ ContainsS t q) →
      ¬ ContainsS (fillCats env banks t g).1 q := by
  intro banks
  induction banks with
  | nil =>
    intro t g q _ _ hcase
    rcases hcase with ⟨cw, hcw, _⟩ | h
    · exact absurd hcw (List.not_mem_nil cw)
    · exact h
  | cons cw rest ih =>
    obtain ⟨cat, ws⟩ := cw
    intro t g q hq hb hcase
    obtain ⟨hws, hw, hvars⟩ := hb (cat, ws) (by simp)
    obtain ⟨hqh, hql, -, -, -, -⟩ := patternsOK q hq
    rw [fillCats]
    by_cases hqc : q ∈ phVariants cat
    · exact ih hq (fun cw' hcw' => hb cw' (by simp [hcw']))
        (Or.inr (fillCategory_removes hqc hvars hws hw))
    · rcases hcase with ⟨cw', hcw', hq'⟩ | hnot
      · rcases List.mem_cons.mp hcw' with heq | hmem
        · rw [heq] at hq'
          exact absurd hq' hqc
        · exact ih hq (fun cw'' hcw'' => hb cw'' (by simp [hcw''])) (Or.inl ⟨cw', hmem, hq'⟩)
      · exact ih hq (fun cw'' hcw'' => hb cw'' (by simp [hcw'']))
          (Or.inr (fillCategory_preserve_not hqh hql hq hws hw hnot))

theorem fillCats_anchor {env : MockEnv} {x : Str} {xc : Char}
    (hxh : x.head? = some xc) (hbrace : '{' ∉ x) :
    ∀ (banks : List (Str × List Str)) {t : Str} {g : PyRandom},
      (∀ cw ∈ banks, ∀ v ∈ phVariants cw.1, xc ∉ v ∧ v.head? = some '{') →
      ContainsS t x → ContainsS (fillCats env banks t g).1 x := by
  intro banks
  induction banks with
  | nil => intro t g _ h; exact h
  | cons cw rest ih =>
    obtain ⟨cat, ws⟩ := cw
    intro t g hb h
    rw [fillCats]
    exact ih (fun cw' hcw' => hb cw' (by simp [hcw']))
      (fillCategory_anchor hxh hbrace (hb (cat, ws) (by simp)) h)

/-! ## The concrete banks satisfy the side conditions -/

theorem mem_allWords {cw : Str × List Str} (hcw : cw ∈ wordBanks) {w : Str}
    (hw : w ∈ cw.2) : w ∈ allWords := by
  simp only [allWords, List.mem_flatten]
  exact ⟨cw.2, List.mem_map_of_mem Prod.snd hcw, hw⟩

theorem mem_allPatterns {cw : Str × List Str} (hcw : cw ∈ wordBanks) {v : Str}
    (hv : v ∈ phVariants cw.1) : v ∈ allPatterns := by
  simp only [allPatterns, List.mem_append, List.mem_flatten]
  exact Or.inl ⟨phVariants cw.1, List.mem_map_of_mem _ hcw, hv⟩

theorem themePat_mem : str "{theme}" ∈ allPatterns := by
  simp [allPatterns]

theorem wordBanks_cond : ∀ cw ∈ wordBanks, cw.2 ≠ [] ∧ (∀ w ∈ cw.2, WordOK w) ∧
    (∀ v ∈ phVariants cw.1, v ∈ allPatterns) := by
  intro cw hcw
  refine ⟨?_, fun w hw => wordsOK w (mem_allWords hcw hw),
    fun v hv => mem_allPatterns hcw hv⟩
  have hall : wordBanks.all (fun cw => !cw.2.isEmpty) = true := by decide
  rw [List.all_eq_true] at hall
  have h := hall cw hcw
  intro hnil
  rw [hnil] at h
  simp at h

theorem wordBanks_cond' : ∀ cw ∈ wordBanks, cw.2 ≠ [] ∧ (∀ w ∈ cw.2, WordOK w) ∧
    ph cw.1 ∈ allPatterns :=
  fun cw hcw => ⟨(wordBanks_cond cw hcw).1, (wordBanks_cond cw hcw).2.1,
    (wordBanks_cond cw hcw).2.2 (ph cw.1) (by simp [phVariants])⟩

/-! ## Theme tokens -/

theorem splitWsAux_infix : ∀ (s acc t : Str), t ∈ splitWsAux s acc →
    ContainsS (acc.reverse ++ s) t := by
  intro s
  induction s with
  | nil =>
    intro acc t ht
    simp only [splitWsAux] at ht
    by_cases hacc : acc = []
    · simp [hacc] at ht
    · rw [if_neg hacc] at ht
      simp only [List.mem_singleton] at ht
      subst ht
      exact ⟨[], [], by simp⟩
  | cons c cs ih =>
    intro acc t ht
    simp only [splitWsAux] at ht
    by_cases hsp : pyIsSpace c = true
    · rw [if_pos hsp] at ht
      by_cases hacc : acc = []
      · rw [if_pos hacc] at ht
        have h1 := ih [] t ht
        simp only [List.reverse_nil, List.nil_append] at h1
        rw [hacc]
        simp only [List.reverse_nil, List.nil_append]
        exact ContainsS.mono_right [c] h1
      · rw [if_neg hacc] at ht
        rcases List.mem_cons.mp ht with rfl | hmem
        · exact ⟨[], c :: cs, by simp⟩
        · have h1 := ih [] t hmem
          simp only [List.reverse_nil, List.nil_append] at h1
          exact ContainsS.mono_right acc.reverse (ContainsS.mono_right [c] h1)
    · rw [if_neg hsp] at ht
      have h1 := ih (c :: acc) t ht
      simpa [List.reverse_cons, List.append_assoc] using h1

theorem pySplitWs_factor {s t : Str} (h : t ∈ pySplitWs s) : ContainsS s t := by
  have := splitWsAux_infix s [] t h
  simpa using this

theorem themeTokens_factor {theme tok : Str} (h : tok ∈ themeTokens theme) :
    ContainsS (lowerL theme) tok := by
  simp only [themeTokens, List.mem_filterMap] at h
  obtain ⟨t0, ht0, htok⟩ := h
  by_cases h2 : 2 < t0.length
  · rw [if_pos h2] at htok
    injection htok with htok
    subst htok
    exact (pySplitWs_factor ht0).map Char.toLower
  · rw [if_neg h2] at htok
    cases htok

/-! ## The relevance patch -/

theorem rstrip_pre (s : Str) : ∃ w, s = rstrip s ++ w := by
  refine ⟨(s.reverse.takeWhile pyIsSpace).reverse, ?_⟩
  have h : s.reverse.takeWhile pyIsSpace ++ s.reverse.dropWhile pyIsSpace =
      s.reverse := List.takeWhile_append_dropWhile pyIsSpace s.reverse
  calc s = s.reverse.reverse := by simp
    _ = (s.reverse.takeWhile pyIsSpace ++ s.reverse.dropWhile pyIsSpace).reverse := by
        rw [h]
    _ = (s.reverse.dropWhile pyIsSpace).reverse ++ (s.reverse.takeWhile pyIsSpace).reverse := by
        rw [List.reverse_append]
    _ = rstrip s ++ (s.reverse.takeWhile pyIsSpace).reverse := rfl

theorem mockAnnotate_spec (theme poem : Str) :
    ((∃ tok ∈ themeTokens theme, ContainsS (lowerL poem) tok) ∧
      mockAnnotate theme poem = poem) ∨
    (themeTokens theme = [] ∧ mockAnnotate theme poem = poem) ∨
    mockAnnotate theme poem = rstrip poem ++ str "\n\n(about " ++ theme ++ [')'] := by
  rw [mockAnnotate]
  by_cases he : (themeTokens theme).isEmpty
  · refine Or.inr (Or.inl ⟨List.isEmpty_iff.mp he, ?_⟩)
    simp [he]
  · by_cases ha : (themeTokens theme).any fun tok => isInfB tok (lowerL poem)
    · refine Or.inl ⟨?_, ?_⟩
      · obtain ⟨tok, htok, hb⟩ := List.any_eq_true.mp ha
        exact ⟨tok, htok, (isInfB_iff _ _).mp hb⟩
      · simp [he, ha]
    · refine Or.inr (Or.inr ?_)
      rw [Bool.not_eq_true] at he ha
      simp [he, ha, List.append_assoc]

/-! ## The custom-theme path: initial shape and absences -/

/-- No placeholder occurs in `A ++ "<theme>" ++ B` when none occurs in `A`
or `B`, `A` is brace-free and the theme is brace-free: the quote barriers
exclude every straddling occurrence. -/
theorem quoted_initial_absence {A B theme q : Str}
    (hqh : q.head? = some '{')
    (hA : ¬ ContainsS A q) (hB : ¬ ContainsS B q)
    (hAbrace : '{' ∉ A) (hth : '{' ∉ theme) :
    ¬ ContainsS (A ++ ('"' :: (theme ++ ['"'])) ++ B) q := by
  intro hcon
  have hcon' : ContainsS (A ++ (('"' :: (theme ++ ['"'])) ++ B)) q := by
    simpa [List.append_assoc] using hcon
  have hqrep : '{' ∉ ('"' :: (theme ++ ['"'])) := by
    intro h
    rcases List.mem_cons.mp h with h | h
    · exact absurd h (by decide)
    · rcases List.mem_append.mp h with h | h
      · exact hth h
      · exact absurd (List.mem_singleton.mp h) (by decide)
  rcases containsS_append_cases hcon' with h1 | h1 | ⟨p₁, p₂, hp, hp1, hp2, hsuf, _⟩
  · exact hA h1
  · rcases containsS_append_cases h1 with h2 | h2 | ⟨q₁, q₂, hq, hq1, hq2, hsuf2, _⟩
    · exact hqrep (h2.cmem (head_mem hqh))
    · exact hB h2
    · have hq1h : q₁.head? = some '{' := by
        rw [← @head?_append_left _ q₂ hq1, ← hq]
        exact hqh
      exact hqrep (hsuf2.emem (head_mem hq1h))
  · have hp1h : p₁.head? = some '{' := by
      rw [← @head?_append_left _ p₂ hp1, ← hp]
      exact hqh
    exact hAbrace (hsuf.emem (head_mem hp1h))

/-- No placeholder is introduced by appending the relevance annotation. -/
theorem annotate_no_pattern {t1 theme q : Str}
    (hqh : q.head? = some '{') (hqn : '\n' ∉ q)
    (hth : '{' ∉ theme) (hnot : ¬ ContainsS t1 q) :
    ¬ ContainsS (rstrip t1 ++ str "\n\n(about " ++ theme ++ [')']) q := by
  intro hcon
  have hcon' : ContainsS (rstrip t1 ++ (str "\n\n(about " ++ (theme ++ [')']))) q := by
    simpa [List.append_assoc] using hcon
  rcases containsS_append_cases hcon' with h1 | h1 | ⟨p₁, p₂, hp, hp1, hp2, hsuf, hpre⟩
  · obtain ⟨w, hw⟩ := rstrip_pre t1
    exact hnot (hw ▸ h1.mono_left w)
  · rcases containsS_append_cases h1 with h2 | h2 | ⟨q₁, q₂, hq, hq1, hq2, hsuf2, _⟩
    · exact absurd (h2.cmem (head_mem hqh)) (by decide)
    · rcases containsS_append_cases h2 with h3 | h3 | ⟨r₁, r₂, hr, hr1, hr2, hsuf3, _⟩
      · exact hth (h3.cmem (head_mem hqh))
      · exact absurd (h3.cmem (head_mem hqh)) (by decide)
      · have hr1h : r₁.head? = some '{' := by
          rw [← @head?_append_left _ r₂ hr1, ← hr]
          exact hqh
        exact hth (hsuf3.emem (head_mem hr1h))
    · have hq1h : q₁.head? = some '{' := by
        rw [← @head?_append_left _ q₂ hq1, ← hq]
        exact hqh
      exact absurd (hsuf2.emem (head_mem hq1h)) (by decide)
  · have hbig : (str "\n\n(about " ++ (theme ++ [')'])).head? = some '\n' := by
      rw [head?_append_left (by decide)]
      rfl
    have hpe := hpre.head_eq hp2
    rw [hbig] at hpe
    refine hqn ?_
    have h2 : '\n' ∈ p₂ := head_mem hpe.symm
    rw [hp]
    exact List.mem_append.mpr (Or.inr h2)
/-- The quoted-theme substitution on this custom template splits it around
the inserted quoted theme. -/
theorem split_cs1 (theme : Str) :
    replaceAll (str "\"{theme}\"") ('"' :: (theme ++ ['"']))
      (str "Upon the theme of \"{theme}\" I write,\nWith words that dance in {adjective} light.\nInspiration flows like morning dew,\nCreating verses fresh and new.") =
    str "Upon the theme of " ++ ('"' :: (theme ++ ['"'])) ++
      str " I write,\nWith words that dance in {adjective} light.\nInspiration flows like morning dew,\nCreating verses fresh and new." := rfl

/-- The quoted-theme substitution on this custom template splits it around
the inserted quoted theme. -/
theorem split_cs2 (theme : Str) :
    replaceAll (str "\"{theme}\"") ('"' :: (theme ++ ['"']))
      (str "In contemplation of \"{theme}\" so bright,\nI weave these words with pure delight.\nLet {noun} take its winding course,\nAnd poetry flow from creative source.") =
    str "In contemplation of " ++ ('"' :: (theme ++ ['"'])) ++
      str " so bright,\nI weave these words with pure delight.\nLet {noun} take its winding course,\nAnd poetry flow from creative source." := rfl

/-- The quoted-theme substitution on this custom template splits it around
the inserted quoted theme. -/
theorem split_cs3 (theme : Str) :
    replaceAll (str "\"{theme}\"") ('"' :: (theme ++ ['"']))
      (str "The beauty of \"{theme}\" unfolds,\nIn {adjective} stories that poet tells.\nWith {noun} and rhythm combined,\nI craft these verses for heart and mind.") =
    str "The beauty of " ++ ('"' :: (theme ++ ['"'])) ++
      str " unfolds,\nIn {adjective} stories that poet tells.\nWith {noun} and rhythm combined,\nI craft these verses for heart and mind." := rfl

/-- The quoted-theme substitution on this custom template splits it around
the inserted quoted theme. -/
theorem split_cm1 (theme : Str) :
    replaceAll (str "\"{theme}\"") ('"' :: (theme ++ ['"']))
      (str "Upon the canvas of \"{theme}\",\nI paint with words a {adjective} dream.\nWhere thoughts and feelings intertwine,\nAnd create something quite divine.\n\nLet metaphors dance through each line,\nAs imagery and rhythm combine.\nTo bring your vision into view,\nA poem crafted just for you.") =
    str "Upon the canvas of " ++ ('"' :: (theme ++ ['"'])) ++
      str ",\nI paint with words a {adjective} dream.\nWhere thoughts and feelings intertwine,\nAnd create something quite divine.\n\nLet metaphors dance through each line,\nAs imagery and rhythm combine.\nTo bring your vision into view,\nA poem crafted just for you." := rfl

/-- The quoted-theme substitution on this custom template splits it around
the inserted quoted theme. -/
theorem split_cm2 (theme : Str) :
    replaceAll (str "\"{theme}\"") ('"' :: (theme ++ ['"']))
      (str "In realm of \"{theme}\" we explore,\nWhere {adjective} wonders lie in store.\nWith {noun} as our faithful guide,\nWe journey to the other side.\n\nThrough {adjective} paths and winding ways,\nWe discover {noun} that never fades.\nA {adjective} tribute to your theme,\nLike poetry from a {adjective} dream.") =
    str "In realm of " ++ ('"' :: (theme ++ ['"'])) ++
      str " we explore,\nWhere {adjective} wonders lie in store.\nWith {noun} as our faithful guide,\nWe journey to the other side.\n\nThrough {adjective} paths and winding ways,\nWe discover {noun} that never fades.\nA {adjective} tribute to your theme,\nLike poetry from a {adjective} dream." := rfl

/-- The quoted-theme substitution on this custom template splits it around
the inserted quoted theme. -/
theorem split_cl1 (theme : Str) :
    replaceAll (str "\"{theme}\"") ('"' :: (theme ++ ['"']))
      (str "In contemplation of \"{theme}\" so bright,\nI weave these words with pure delight.\nLet imagination take its course,\nAnd poetry flow from creative source.\n\nThrough metaphor and imagery clear,\nThe essence of your theme draws near.\nWith rhythm, rhyme, and {adjective} emotion,\nI craft this verse like {noun} potion.\n\nIn every line a {noun} lies,\nBeneath the {weather} painted skies.\nMay these words touch your very soul,\nAnd make your spirit feel more whole.\n\nFor in the art of poetry,\nWe find our shared humanity.\nA {adjective} bridge from heart to heart,\nWhere {noun} and beauty never part.") =
    str "In contemplation of " ++ ('"' :: (theme ++ ['"'])) ++
      str " so bright,\nI weave these words with pure delight.\nLet imagination take its course,\nAnd poetry flow from creative source.\n\nThrough metaphor and imagery clear,\nThe essence of your theme draws near.\nWith rhythm, rhyme, and {adjective} emotion,\nI craft this verse like {noun} potion.\n\nIn every line a {noun} lies,\nBeneath the {weather} painted skies.\nMay these words touch your very soul,\nAnd make your spirit feel more whole.\n\nFor in the art of poetry,\nWe find our shared humanity.\nA {adjective} bridge from heart to heart,\nWhere {noun} and beauty never part." := rfl

/-! ## Unfolding helpers and catalog non-emptiness -/

theorem customTemplates_ne_nil (len : PLength) : customTemplates len ≠ [] := by
  cases len <;> decide

theorem poemTemplates_ne_nil (cat : ThemeCat) (len : PLength) :
    poemTemplates cat len ≠ [] := by
  cases cat <;> cases len <;> decide

theorem mockPoem_some {env : MockEnv} {theme : Str} {style : PStyle} {len : PLength}
    {g : PyRandom} {cat : ThemeCat} (hclass : classifyTheme theme = some cat) :
    mockPoem env theme style len g =
      (mockAnnotate theme (fillCats env wordBanks
        (pychoice env (poemTemplates cat len)
          ⟨env.md5h (seedString theme style len env.micro), 0⟩).1
        (pychoice env (poemTemplates cat len)
          ⟨env.md5h (seedString theme style len env.micro), 0⟩).2).1,
       (fillCats env wordBanks
        (pychoice env (poemTemplates cat len)
          ⟨env.md5h (seedString theme style len env.micro), 0⟩).1
        (pychoice env (poemTemplates cat len)
          ⟨env.md5h (seedString theme style len env.micro), 0⟩).2).2) := by
  simp only [mockPoem, hclass]

theorem mockPoem_none {env : MockEnv} {theme : Str} {style : PStyle} {len : PLength}
    {g : PyRandom} (hclass : classifyTheme theme = none) :
    mockPoem env theme style len g =
      customThemePoem env theme len
        ⟨env.md5h (seedString theme style len env.micro), 0⟩ := by
  simp only [mockPoem, hclass]

theorem mockPoem_some_fst {env : MockEnv} {theme : Str} {style : PStyle}
    {len : PLength} {g : PyRandom} {cat : ThemeCat}
    (hclass : classifyTheme theme = some cat) :
    (mockPoem env theme style len g).1 =
      mockAnnotate theme (fillCats env wordBanks
        (pychoice env (poemTemplates cat len)
          ⟨env.md5h (seedString theme style len env.micro), 0⟩).1
        (pychoice env (poemTemplates cat len)
          ⟨env.md5h (seedString theme style len env.micro), 0⟩).2).1 := by
  rw [mockPoem_some hclass]

theorem mockPoem_none_fst {env : MockEnv} {theme : Str} {style : PStyle}
    {len : PLength} {g : PyRandom} (hclass : classifyTheme theme = none) :
    (mockPoem env theme style len g).1 =
      (customThemePoem env theme len
        ⟨env.md5h (seedString theme style len env.micro), 0⟩).1 := by
  rw [mockPoem_none hclass]

/-! ## The final state of the process-wide generator (claim C4) -/

theorem fillLoop_seedv (env : MockEnv) (p : Str) (words : List Str) :
    ∀ (fuel : ℕ) (t : Str) (g : PyRandom),
      (fillLoop env p words fuel t g).2.seedv = g.seedv := by
  intro fuel
  induction fuel with
  | zero => intro t g; rfl
  | succ n ih =>
    intro t g
    rw [fillLoop]
    cases hsf : splitFirst p t with
    | none => rfl
    | some uv =>
      obtain ⟨u, v⟩ := uv
      simp only [hsf]
      rw [ih]
      rfl

theorem fillLoop_cnt (env : MockEnv) (p : Str) (words : List Str) :
    ∀ (fuel : ℕ) (t : Str) (g : PyRandom),
      g.cnt ≤ (fillLoop env p words fuel t g).2.cnt := by
  intro fuel
  induction fuel with
  | zero => intro t g; exact Nat.le_refl _
  | succ n ih =>
    intro t g
    rw [fillLoop]
    cases hsf : splitFirst p t with
    | none => exact Nat.le_refl _
    | some uv =>
      obtain ⟨u, v⟩ := uv
      simp only [hsf]
      have := ih (u ++ (pychoice env words g).1 ++ v) (pychoice env words g).2
      have h2 : (pychoice env words g).2.cnt = g.cnt + 1 := rfl
      omega

theorem fillLoops_seedv (env : MockEnv) :
    ∀ (banks : List (Str × List Str)) (t : Str) (g : PyRandom),
      (fillLoops env banks t g).2.seedv = g.seedv := by
  intro banks
  induction banks with
  | nil => intro t g; rfl
  | cons cw rest ih =>
    obtain ⟨cat, ws⟩ := cw
    intro t g
    rw [fillLoops, ih, fillLoop_seedv]

theorem fillLoops_cnt (env : MockEnv) :
    ∀ (banks : List (Str × List Str)) (t : Str) (g : PyRandom),
      g.cnt ≤ (fillLoops env banks t g).2.cnt := by
  intro banks
  induction banks with
  | nil => intro t g; exact Nat.le_refl _
  | cons cw rest ih =>
    obtain ⟨cat, ws⟩ := cw
    intro t g
    rw [fillLoops]
    exact le_trans (fillLoop_cnt env (ph cat) ws t.length t g) (ih _ _)

theorem fillCategory_seedv (env : MockEnv) (cat : Str) (words : List Str)
    (t : Str) (g : PyRandom) : (fillCategory env cat words t g).2.seedv = g.seedv := rfl

theorem fillCategory_cnt (env : MockEnv) (cat : Str) (words : List Str)
    (t : Str) (g : PyRandom) : (fillCategory env cat words t g).2.cnt = g.cnt + 4 := rfl

theorem fillCats_seedv (env : MockEnv) :
    ∀ (banks : List (Str × List Str)) (t : Str) (g : PyRandom),
      (fillCats env banks t g).2.seedv = g.seedv := by
  intro banks
  induction banks with
  | nil => intro t g; rfl
  | cons cw rest ih =>
    obtain ⟨cat, ws⟩ := cw
    intro t g
    rw [fillCats, ih, fillCategory_seedv]

theorem fillCats_cnt (env : MockEnv) :
    ∀ (banks : List (Str × List Str)) (t : Str) (g : PyRandom),
      g.cnt ≤ (fillCats env banks t g).2.cnt := by
  intro banks
  induction banks with
  | nil => intro t g; exact Nat.le_refl _
  | cons cw rest ih =>
    obtain ⟨cat, ws⟩ := cw
    intro t g
    rw [fillCats]
    have h1 := fillCategory_cnt env cat ws t g
    have h2 := ih (fillCategory env cat ws t g).1 (fillCategory env cat ws t g).2
    omega

/-- After any local generation, the process-wide generator's seed is the
request-derived MD5 seed: `random.seed(seed)` was executed on it and no
later operation restores the caller's state. -/
theorem mockPoem_reseeds (env : MockEnv) (theme : Str) (style : PStyle)
    (len : PLength) (g : PyRandom) :
    (mockPoem env theme style len g).2.seedv =
      env.md5h (seedString theme style len env.micro) ∧
    1 ≤ (mockPoem env theme style len g).2.cnt := by
  cases hclass : classifyTheme theme with
  | some cat =>
    rw [mockPoem_some hclass]
    constructor
    · rw [fillCats_seedv]
      rfl
    · have h1 := fillCats_cnt env wordBanks
        (pychoice env (poemTemplates cat len)
          ⟨env.md5h (seedString theme style len env.micro), 0⟩).1
        (pychoice env (poemTemplates cat len)
          ⟨env.md5h (seedString theme style len env.micro), 0⟩).2
      have h2 : (pychoice env (poemTemplates cat len)
          ⟨env.md5h (seedString theme style len env.micro), 0⟩).2.cnt = 1 := rfl
      exact h2 ▸ h1
  | none =>
    rw [mockPoem_none hclass]
    constructor
    · rw [customThemePoem, fillLoops_seedv]
      rfl
    · rw [customThemePoem]
      have h1 := fillLoops_cnt env wordBanks
        (replaceAll (str "\"{theme}\"")
          ('"' :: (theme ++ ['"']))
          (pychoice env (customTemplates len)
            ⟨env.md5h (seedString theme style len env.micro), 0⟩).1)
        (pychoice env (customTemplates len)
          ⟨env.md5h (seedString theme style len env.micro), 0⟩).2
      have h2 : (pychoice env (customTemplates len)
          ⟨env.md5h (seedString theme style len env.micro), 0⟩).2.cnt = 1 := rfl
      exact h2 ▸ h1

/-! ## Custom-theme path: no surviving placeholder, theme inclusion, length -/

theorem anchor_head_cond {xc : Char} (hxc : xc = ',' ∨ xc = ' ') :
    ∀ cw ∈ wordBanks, xc ∉ ph cw.1 ∧ (ph cw.1).head? = some '{' := by
  intro cw hcw
  have hm := (wordBanks_cond' cw hcw).2.2
  obtain ⟨hh, -, -, -, hcm, hsp⟩ := patternsOK _ hm
  rcases hxc with rfl | rfl
  exacts [⟨hcm, hh⟩, ⟨hsp, hh⟩]

theorem anchor_head_cond_variants {xc : Char} (hxc : xc = ',' ∨ xc = ' ') :
    ∀ cw ∈ wordBanks, ∀ v ∈ phVariants cw.1, xc ∉ v ∧ v.head? = some '{' := by
  intro cw hcw v hv
  have hm := mem_allPatterns hcw hv
  obtain ⟨hh, -, -, -, hcm, hsp⟩ := patternsOK v hm
  rcases hxc with rfl | rfl
  exacts [⟨hcm, hh⟩, ⟨hsp, hh⟩]

theorem absence_of_all {A B q : Str} (hq : q ∈ allPatterns)
    (hall : allPatterns.all (fun q' =>
      decide (q' ∈ wordBanks.map fun cw => ph cw.1) ||
        (!(isInfB q' A) && !(isInfB q' B))) = true) :
    q ∈ (wordBanks.map fun cw => ph cw.1) ∨ (¬ ContainsS A q ∧ ¬ ContainsS B q) := by
  rw [List.all_eq_true] at hall
  have h := hall q hq
  simp only [Bool.or_eq_true, Bool.and_eq_true, Bool.not_eq_true',
    decide_eq_true_eq] at h
  rcases h with h | ⟨h1, h2⟩
  · exact Or.inl h
  · refine Or.inr ⟨fun hc => ?_, fun hc => ?_⟩
    · rw [(isInfB_iff q A).mpr hc] at h1
      cases h1
    · rw [(isInfB_iff q B).mpr hc] at h2
      cases h2

theorem custom_leaf_no_pattern {env : MockEnv} {theme A B q : Str} {g : PyRandom}
    (hth : '{' ∉ theme) (hq : q ∈ allPatterns)
    (habs : q ∈ (wordBanks.map fun cw => ph cw.1) ∨ (¬ ContainsS A q ∧ ¬ ContainsS B q))
    (hAbrace : '{' ∉ A) :
    ¬ ContainsS (fillLoops env wordBanks (A ++ ('"' :: (theme ++ ['"'])) ++ B) g).1 q := by
  obtain ⟨hqh, -, -, -, -, -⟩ := patternsOK q hq
  apply fillLoops_all wordBanks hq wordBanks_cond'
  rcases habs with hlow | ⟨hA, hB⟩
  · obtain ⟨cw, hcw, heq⟩ := List.mem_map.mp hlow
    exact Or.inl ⟨cw, hcw, heq.symm⟩
  · exact Or.inr (quoted_initial_absence hqh hA hB hAbrace hth)

theorem customThemePoem_no_pattern (env : MockEnv) (theme : Str) (len : PLength)
    (g : PyRandom) (q : Str) (hth : '{' ∉ theme) (hq : q ∈ allPatterns) :
    ¬ ContainsS (customThemePoem env theme len g).1 q := by
  have ht0 := pychoice_mem env (customTemplates len) g (customTemplates_ne_nil len)
  show ¬ ContainsS (fillLoops env wordBanks (replaceAll (str "\"{theme}\"")
    ('"' :: (theme ++ ['"'])) (pychoice env (customTemplates len) g).1)
    (pychoice env (customTemplates len) g).2).1 q
  cases len with
  | short =>
    simp only [customTemplates] at ht0 ⊢
    simp only [List.mem_cons, List.not_mem_nil, or_false] at ht0
    rcases ht0 with h | h | h <;> rw [h]
    · rw [split_cs1]
      exact custom_leaf_no_pattern hth hq (absence_of_all hq (by decide)) (by decide)
    · rw [split_cs2]
      exact custom_leaf_no_pattern hth hq (absence_of_all hq (by decide)) (by decide)
    · rw [split_cs3]
      exact custom_leaf_no_pattern hth hq (absence_of_all hq (by decide)) (by decide)
  | medium =>
    simp only [customTemplates] at ht0 ⊢
    simp only [List.mem_cons, List.not_mem_nil, or_false] at ht0
    rcases ht0 with h | h <;> rw [h]
    · rw [split_cm1]
      exact custom_leaf_no_pattern hth hq (absence_of_all hq (by decide)) (by decide)
    · rw [split_cm2]
      exact custom_leaf_no_pattern hth hq (absence_of_all hq (by decide)) (by decide)
  | long =>
    simp only [customTemplates] at ht0 ⊢
    simp only [List.mem_cons, List.not_mem_nil, or_false] at ht0
    rw [ht0, split_cl1]
    exact custom_leaf_no_pattern hth hq (absence_of_all hq (by decide)) (by decide)

theorem customThemePoem_qrep (env : MockEnv) (theme : Str) (len : PLength)
    (g : PyRandom) (hth : '{' ∉ theme) :
    ContainsS (customThemePoem env theme len g).1 ('"' :: (theme ++ ['"'])) := by
  have ht0 := pychoice_mem env (customTemplates len) g (customTemplates_ne_nil len)
  show ContainsS (fillLoops env wordBanks (replaceAll (str "\"{theme}\"")
    ('"' :: (theme ++ ['"'])) (pychoice env (customTemplates len) g).1)
    (pychoice env (customTemplates len) g).2).1 ('"' :: (theme ++ ['"']))
  have hbrace : '{' ∉ ('"' :: (theme ++ ['"'])) := by
    intro hmem
    rcases List.mem_cons.mp hmem with h | h
    · exact absurd h (by decide)
    · rcases List.mem_append.mp h with h | h
      · exact hth h
      · exact absurd (List.mem_singleton.mp h) (by decide)
  have hcond : ∀ cw ∈ wordBanks, '"' ∉ ph cw.1 ∧ (ph cw.1).head? = some '{' := by
    intro cw hcw
    have hm := (wordBanks_cond' cw hcw).2.2
    obtain ⟨hh, -, -, hqu, -, -⟩ := patternsOK _ hm
    exact ⟨hqu, hh⟩
  have hsome : ∀ t0 ∈ customTemplates len,
      (splitFirst (str "\"{theme}\"") t0).isSome = true := by
    cases len <;> decide
  exact fillLoops_anchor (show ('"' :: (theme ++ ['"'])).head? = some '"' from rfl)
    hbrace wordBanks hcond
    (replaceAllF_gives_r (hsome _ ht0))

theorem custom_len_leaf {env : MockEnv} {theme t0 x : Str} {g1 : PyRandom} {xc : Char}
    (hxh : x.head? = some xc) (hxc : xc = ',' ∨ xc = ' ')
    (hbrace : '{' ∉ x) (hquote : '"' ∉ x)
    (hx0 : ContainsS t0 x) (hlen : 10 ≤ x.length) :
    10 ≤ (fillLoops env wordBanks
      (replaceAll (str "\"{theme}\"") ('"' :: (theme ++ ['"'])) t0) g1).1.length := by
  have hxcq : xc ∉ str "\"{theme}\"" := by
    rcases hxc with rfl | rfl <;> decide
  have h1 : ContainsS (replaceAll (str "\"{theme}\"")
      ('"' :: (theme ++ ['"'])) t0) x :=
    replaceAllF_anchor hxh hxcq rfl hquote hx0
  exact le_trans hlen
    (fillLoops_anchor hxh hbrace wordBanks (anchor_head_cond hxc) h1).length_le

theorem customThemePoem_len (env : MockEnv) (theme : Str) (len : PLength)
    (g : PyRandom) : 10 ≤ (customThemePoem env theme len g).1.length := by
  have ht0 := pychoice_mem env (customTemplates len) g (customTemplates_ne_nil len)
  show 10 ≤ (fillLoops env wordBanks (replaceAll (str "\"{theme}\"")
    ('"' :: (theme ++ ['"'])) (pychoice env (customTemplates len) g).1)
    (pychoice env (customTemplates len) g).2).1.length
  cases len with
  | short =>
    simp only [customTemplates] at ht0 ⊢
    simp only [List.mem_cons, List.not_mem_nil, or_false] at ht0
    rcases ht0 with h | h | h <;> rw [h]
    · exact custom_len_leaf (show (str ",\nCreating verses fresh and new.").head? = some ',' from rfl)
        (Or.inl rfl) (by decide) (by decide) ((isInfB_iff _ _).mp (by decide)) (by decide)
    · exact custom_len_leaf (show (str ",\nAnd poetry flow from creative source.").head? = some ',' from rfl)
        (Or.inl rfl) (by decide) (by decide) ((isInfB_iff _ _).mp (by decide)) (by decide)
    · exact custom_len_leaf (show (str ",\nI craft these verses for heart and mind.").head? = some ',' from rfl)
        (Or.inl rfl) (by decide) (by decide) ((isInfB_iff _ _).mp (by decide)) (by decide)
  | medium =>
    simp only [customTemplates] at ht0 ⊢
    simp only [List.mem_cons, List.not_mem_nil, or_false] at ht0
    rcases ht0 with h | h <;> rw [h]
    · exact custom_len_leaf (show (str ",\nAnd create something quite divine.").head? = some ',' from rfl)
        (Or.inl rfl) (by decide) (by decide) ((isInfB_iff _ _).mp (by decide)) (by decide)
    · exact custom_len_leaf (show (str ",\nWe journey to the other side.").head? = some ',' from rfl)
        (Or.inl rfl) (by decide) (by decide) ((isInfB_iff _ _).mp (by decide)) (by decide)
  | long =>
    simp only [customTemplates] at ht0 ⊢
    simp only [List.mem_cons, List.not_mem_nil, or_false] at ht0
    rw [ht0]
    exact custom_len_leaf (show (str ",\nWe find our shared humanity.").head? = some ',' from rfl)
      (Or.inl rfl) (by decide) (by decide) ((isInfB_iff _ _).mp (by decide)) (by decide)

/-! ## Themed-template path: length and placeholder absence -/

theorem templates_no_theme_pat : ∀ (cat : ThemeCat) (len : PLength),
    ∀ t ∈ poemTemplates cat len, ¬ ContainsS t (str "{theme}") := by
  intro cat len t ht hc
  have hb : (poemTemplates cat len).all (fun t => !(isInfB (str "{theme}") t)) = true := by
    cases cat <;> cases len <;> decide
  rw [List.all_eq_true] at hb
  have h := hb t ht
  rw [(isInfB_iff _ _).mpr hc] at h
  simp at h

theorem fillCats_template_len (env : MockEnv) (cat : ThemeCat) (len : PLength)
    (t0 : Str) (ht0 : t0 ∈ poemTemplates cat len) (g : PyRandom) :
    10 ≤ (fillCats env wordBanks t0 g).1.length := by
  have leaf : ∀ (x : Str) (xc : Char), x.head? = some xc → (xc = ',' ∨ xc = ' ') →
      '{' ∉ x → ContainsS t0 x → 10 ≤ x.length →
      10 ≤ (fillCats env wordBanks t0 g).1.length := by
    intro x xc hxh hxc hbrace hx0 hlen
    exact le_trans hlen
      (fillCats_anchor hxh hbrace wordBanks (anchor_head_cond_variants hxc) hx0).length_le
  cases cat with
  | love =>
    cases len with
    | short =>
      simp only [poemTemplates, List.mem_cons, List.not_mem_nil, or_false] at ht0
      rcases ht0 with rfl | rfl | rfl
      · exact leaf (str ",\nTwo souls united beyond all reason.") _ rfl (Or.inl rfl) (by decide)
          ((isInfB_iff _ _).mp (by decide)) (by decide)
      · exact leaf (str ",\nIn love's embrace we'll always stay.") _ rfl (Or.inl rfl) (by decide)
          ((isInfB_iff _ _).mp (by decide)) (by decide)
      · exact leaf (str ",\nYour love will always be my home.") _ rfl (Or.inl rfl) (by decide)
          ((isInfB_iff _ _).mp (by decide)) (by decide)
    | medium =>
      simp only [poemTemplates, List.mem_cons, List.not_mem_nil, or_false] at ht0
      rcases ht0 with rfl | rfl
      · exact leaf (str ",\nOur hearts dance in love's sweet refrain.") _ rfl (Or.inl rfl) (by decide)
          ((isInfB_iff _ _).mp (by decide)) (by decide)
      · exact leaf (str ",\nA gentle touch, a warm embrace.") _ rfl (Or.inl rfl) (by decide)
          ((isInfB_iff _ _).mp (by decide)) (by decide)
    | long =>
      simp only [poemTemplates, List.mem_cons, List.not_mem_nil, or_false] at ht0
      rcases ht0 with rfl
      · exact leaf (str ",\nTwo hearts discover what is true,") _ rfl (Or.inl rfl) (by decide)
          ((isInfB_iff _ _).mp (by decide)) (by decide)
  | nature =>
    cases len with
    | short =>
      simp only [poemTemplates, List.mem_cons, List.not_mem_nil, or_false] at ht0
      rcases ht0 with rfl | rfl | rfl
      · exact leaf (str ",\nNature paints a new display.") _ rfl (Or.inl rfl) (by decide)
          ((isInfB_iff _ _).mp (by decide)) (by decide)
      · exact leaf (str ",\nNature shows us how to love.") _ rfl (Or.inl rfl) (by decide)
          ((isInfB_iff _ _).mp (by decide)) (by decide)
      · exact leaf (str ",\nNature fills the world with light.") _ rfl (Or.inl rfl) (by decide)
          ((isInfB_iff _ _).mp (by decide)) (by decide)
    | medium =>
      simp only [poemTemplates, List.mem_cons, List.not_mem_nil, or_false] at ht0
      rcases ht0 with rfl | rfl
      · exact leaf (str ",\nNature's magic shines right through.") _ rfl (Or.inl rfl) (by decide)
          ((isInfB_iff _ _).mp (by decide)) (by decide)
      · exact leaf (str ",\nOf seasons past and legends told.") _ rfl (Or.inl rfl) (by decide)
          ((isInfB_iff _ _).mp (by decide)) (by decide)
    | long =>
      simp only [poemTemplates, List.mem_cons, List.not_mem_nil, or_false] at ht0
      rcases ht0 with rfl
      · exact leaf (str ",\nWhere ancient secrets nature keeps.") _ rfl (Or.inl rfl) (by decide)
          ((isInfB_iff _ _).mp (by decide)) (by decide)
  | dreams =>
    cases len with
    | short =>
      simp only [poemTemplates, List.mem_cons, List.not_mem_nil, or_false] at ht0
      rcases ht0 with rfl | rfl | rfl
      · exact leaf (str ",\nBeneath the ") _ rfl (Or.inl rfl) (by decide)
          ((isInfB_iff _ _).mp (by decide)) (by decide)
      · exact leaf (str ",\nWe journey to a world unknown,") _ rfl (Or.inl rfl) (by decide)
          ((isInfB_iff _ _).mp (by decide)) (by decide)
      · exact leaf (str " and drift away,\nTo where dreams hold ") _ rfl (Or.inr rfl) (by decide)
          ((isInfB_iff _ _).mp (by decide)) (by decide)
    | medium =>
      simp only [poemTemplates, List.mem_cons, List.not_mem_nil, or_false] at ht0
      rcases ht0 with rfl | rfl
      · exact leaf (str ",\nWe wander through the ") _ rfl (Or.inl rfl) (by decide)
          ((isInfB_iff _ _).mp (by decide)) (by decide)
      · exact leaf (str ",\nGuiding us through the night.") _ rfl (Or.inl rfl) (by decide)
          ((isInfB_iff _ _).mp (by decide)) (by decide)
    | long =>
      simp only [poemTemplates, List.mem_cons, List.not_mem_nil, or_false] at ht0
      rcases ht0 with rfl
      · exact leaf (str ",\nBeyond the veil of day and night,") _ rfl (Or.inl rfl) (by decide)
          ((isInfB_iff _ _).mp (by decide)) (by decide)

theorem template_no_pattern {env : MockEnv} {theme t0 q : Str} {g : PyRandom}
    (hth : '{' ∉ theme) (hq : q ∈ allPatterns)
    (hth0 : ¬ ContainsS t0 (str "{theme}")) :
    ¬ ContainsS (mockAnnotate theme (fillCats env wordBanks t0 g).1) q := by
  obtain ⟨hqh, hql, hqn, -, -, -⟩ := patternsOK q hq
  have hfill : ¬ ContainsS (fillCats env wordBanks t0 g).1 q := by
    apply fillCats_all wordBanks hq (fun cw hcw => wordBanks_cond cw hcw)
    have hq' : q ∈ (wordBanks.map fun cw => phVariants cw.1).flatten ++ [str "{theme}"] := by
      simpa [allPatterns] using hq
    rcases List.mem_append.mp hq' with hv | hb
    · obtain ⟨l, hl, hql'⟩ := List.mem_flatten.mp hv
      obtain ⟨cw, hcw, rfl⟩ := List.mem_map.mp hl
      exact Or.inl ⟨cw, hcw, hql'⟩
    · have hq0 := List.mem_singleton.mp hb
      subst hq0
      exact Or.inr hth0
  rcases mockAnnotate_spec theme (fillCats env wordBanks t0 g).1 with
    ⟨-, heq⟩ | ⟨-, heq⟩ | heq
  · rw [heq]; exact hfill
  · rw [heq]; exact hfill
  · rw [heq]; exact annotate_no_pattern hqh hqn hth hfill

/-- Core of claim C10 (amended): for a brace-free theme, no case-variant
placeholder form and no theme placeholder survives in the local-engine
output. -/
theorem mockPoem_no_pattern (env : MockEnv) (theme : Str) (style : PStyle)
    (len : PLength) (g : PyRandom) (q : Str) (hth : '{' ∉ theme)
    (hq : q ∈ allPatterns) :
    ¬ ContainsS (mockPoem env theme style len g).1 q := by
  cases hclass : classifyTheme theme with
  | some cat =>
    rw [mockPoem_some_fst hclass]
    exact template_no_pattern hth hq (templates_no_theme_pat cat len _
      (pychoice_mem env _ _ (poemTemplates_ne_nil cat len)))
  | none =>
    rw [mockPoem_none_fst hclass]
    exact customThemePoem_no_pattern env theme len _ q hth hq

/-- The annotated text ends with the `(about theme)` suffix. -/
theorem ends_annotate (s theme : Str) :
    EndsWith (rstrip s ++ str "\n\n(about " ++ theme ++ [')'])
      (str "(about " ++ theme ++ [')']) :=
  ⟨rstrip s ++ str "\n\n", by simp only [List.append_assoc]; rfl⟩

/-- Core of claim C5 (amended): for a brace-free theme with at least one
token longer than two characters, the local-engine output contains such a
token case-insensitively, or ends with the explicit annotation. -/
theorem mockPoem_relevance (env : MockEnv) (theme : Str) (style : PStyle)
    (len : PLength) (g : PyRandom) (hth : '{' ∉ theme)
    (htok : themeTokens theme ≠ []) :
    (∃ tok ∈ themeTokens theme,
      ContainsS (lowerL (mockPoem env theme style len g).1) tok) ∨
    EndsWith (mockPoem env theme style len g).1 (str "(about " ++ theme ++ [')']) := by
  cases hclass : classifyTheme theme with
  | some cat =>
    rw [mockPoem_some_fst hclass]
    rcases mockAnnotate_spec theme (fillCats env wordBanks
      (pychoice env (poemTemplates cat len)
        ⟨env.md5h (seedString theme style len env.micro), 0⟩).1
      (pychoice env (poemTemplates cat len)
        ⟨env.md5h (seedString theme style len env.micro), 0⟩).2).1 with
      ⟨⟨tok, htk, hcon⟩, heq⟩ | ⟨hemp, -⟩ | heq
    · rw [heq]
      exact Or.inl ⟨tok, htk, hcon⟩
    · exact absurd hemp htok
    · rw [heq]
      exact Or.inr (ends_annotate _ theme)
  | none =>
    rw [mockPoem_none_fst hclass]
    left
    obtain ⟨tok, htk⟩ := List.exists_mem_of_ne_nil _ htok
    refine ⟨tok, htk, ?_⟩
    have h1 := customThemePoem_qrep env theme len
      ⟨env.md5h (seedString theme style len env.micro), 0⟩ hth
    have h2 : ContainsS (customThemePoem env theme len
        ⟨env.md5h (seedString theme style len env.micro), 0⟩).1 theme :=
      h1.trans ⟨['"'], ['"'], by simp⟩
    exact (h2.map Char.toLower).trans (themeTokens_factor htk)

/-- Core of the amended claim C1: the local engine always produces at least
ten characters, for every theme, style, length and random behaviour. -/
theorem mockPoem_len (env : MockEnv) (theme : Str) (style : PStyle)
    (len : PLength) (g : PyRandom) :
    10 ≤ (mockPoem env theme style len g).1.length := by
  cases hclass : classifyTheme theme with
  | none =>
    rw [mockPoem_none_fst hclass]
    exact customThemePoem_len env theme len _
  | some cat =>
    rw [mockPoem_some_fst hclass]
    rcases mockAnnotate_spec theme (fillCats env wordBanks
      (pychoice env (poemTemplates cat len)
        ⟨env.md5h (seedString theme style len env.micro), 0⟩).1
      (pychoice env (poemTemplates cat len)
        ⟨env.md5h (seedString theme style len env.micro), 0⟩).2).1 with
      ⟨-, heq⟩ | ⟨-, heq⟩ | heq
    · rw [heq]
      exact fillCats_template_len env cat len _
        (pychoice_mem env _ _ (poemTemplates_ne_nil cat len)) _
    · rw [heq]
      exact fillCats_template_len env cat len _
        (pychoice_mem env _ _ (poemTemplates_ne_nil cat len)) _
    · rw [heq]
      simp only [List.length_append]
      have h9 : (str "\n\n(about ").length = 9 := rfl
      have h1 : ([')'] : Str).length = 1 := rfl
      omega

/-! ## The remote retry loop: trace structure (claims C7 and C8) -/

/-- Case analysis of the `except` clause `owErr`: either it raises (empty
trace) or, when attempts remain (`a < 2`), it sleeps once and continues, the
sleep being a rate-limit backoff `1 * 2 ^ a +` jitter, a timeout backoff, or
the constant backoff. -/
theorem owErr_spec (a u : ℕ) (uni : ℕ → ℚ) (m : Str)
    (k : ℕ → Except Str Str × List Ev) :
    (∃ e, owErr a u uni m k = (.error e, [])) ∨
    (a < 2 ∧ ∃ d sk u', owErr a u uni m k = ((k u').1, Ev.slept d sk :: (k u').2) ∧
      ((sk = SleepK.rateLimit a ∧ d = 1 * (2 : ℚ) ^ a + uni u) ∨
        sk = SleepK.timeoutB a ∨ sk = SleepK.otherB a)) := by
  simp only [owErr]
  split_ifs with h1 h2 h3 h4 h5 h6
  · exact Or.inr ⟨h2, _, _, u + 1, rfl, Or.inl ⟨rfl, rfl⟩⟩
  · exact Or.inl ⟨_, rfl⟩
  · exact Or.inl ⟨_, rfl⟩
  · exact Or.inr ⟨h5, _, _, u, rfl, Or.inr (Or.inl rfl)⟩
  · exact Or.inl ⟨_, rfl⟩
  · exact Or.inr ⟨h6, _, _, u, rfl, Or.inr (Or.inr rfl)⟩
  · exact Or.inl ⟨_, rfl⟩

/-- Helper: peeling a non-`focused` head off a split around `focused`. -/
theorem cons_decomp {e f : Ev} {tr pre post : List Ev}
    (h : e :: tr = pre ++ f :: post) (hne : e ≠ f) :
    ∃ p, pre = e :: p ∧ tr = p ++ f :: post := by
  cases pre with
  | nil =>
    simp only [List.nil_append, List.cons.injEq] at h
    exact absurd h.1 hne
  | cons p ps =>
    simp only [List.cons_append, List.cons.injEq] at h
    exact ⟨ps, by rw [h.1], h.2⟩

/-- Helper absorbing the `owErr`-continuation cases of one attempt. -/
theorem owErr_step (renv : REnv) (theme : Str) (n a c u : ℕ) (m : Str)
    (P : Except Str Str × List Ev)
    (hP : P = ((owErr a (u + 3) renv.uni m
        (fun v => owAttempt renv theme n (a + 1) (c + 1) v)).1,
      Ev.prim a :: (owErr a (u + 3) renv.uni m
        (fun v => owAttempt renv theme n (a + 1) (c + 1) v)).2)) :
    (∃ x, P = (x, [Ev.prim a])) ∨
    (a < 2 ∧ ∃ d sk u', P = ((owAttempt renv theme n (a + 1) (c + 1) u').1,
        Ev.prim a :: Ev.slept d sk ::
          (owAttempt renv theme n (a + 1) (c + 1) u').2) ∧
      ((sk = SleepK.rateLimit a ∧ ∃ j, d = 1 * (2 : ℚ) ^ a + renv.uni j) ∨
        sk = SleepK.timeoutB a ∨ sk = SleepK.otherB a ∨
        sk = SleepK.relevance a)) := by
  rcases owErr_spec a (u + 3) renv.uni m
      (fun v => owAttempt renv theme n (a + 1) (c + 1) v) with
    ⟨e, heq⟩ | ⟨ha, d, sk, u', heq, hsk⟩
  · rw [heq] at hP
    exact Or.inl ⟨.error e, hP⟩
  · rw [heq] at hP
    refine Or.inr ⟨ha, d, sk, u', hP, ?_⟩
    rcases hsk with ⟨h1, h2⟩ | h | h
    · exact Or.inl ⟨h1, u + 3, h2⟩
    · exact Or.inr (Or.inl h)
    · exact Or.inr (Or.inr (Or.inl h))

/-- One step of the attempt loop, seen from its trace: a terminal attempt
(trace `[prim a]`), a retried attempt (`prim a`, one backoff sleep, then the
next attempt's trace), or a last-attempt focused retry
(trace `[prim a, focused]`, only when `¬ a < 2`). -/
theorem owAttempt_succ_cases (renv : REnv) (theme : Str) (n a c u : ℕ) :
    (∃ x, owAttempt renv theme (n + 1) a c u = (x, [Ev.prim a])) ∨
    (a < 2 ∧ ∃ d sk u', owAttempt renv theme (n + 1) a c u =
        ((owAttempt renv theme n (a + 1) (c + 1) u').1,
          Ev.prim a :: Ev.slept d sk ::
            (owAttempt renv theme n (a + 1) (c + 1) u').2) ∧
      ((sk = SleepK.rateLimit a ∧ ∃ j, d = 1 * (2 : ℚ) ^ a + renv.uni j) ∨
        sk = SleepK.timeoutB a ∨ sk = SleepK.otherB a ∨
        sk = SleepK.relevance a)) ∨
    (¬ a < 2 ∧ ∃ x, owAttempt renv theme (n + 1) a c u =
        (x, [Ev.prim a, Ev.focused])) := by
  simp only [owAttempt]
  cases hapi : renv.api c with
  | exn m =>
    simp only [hapi]
    rcases owErr_step renv theme n a c u m _ rfl with h | h
    · exact Or.inl h
    · exact Or.inr (Or.inl h)
  | ok content =>
    simp only [hapi]
    by_cases hc : content = []
    · rw [if_pos hc]
      rcases owErr_step renv theme n a c u _ _ rfl with h | h
      · exact Or.inl h
      · exact Or.inr (Or.inl h)
    · rw [if_neg hc]
      by_cases hrel : relevanceFound theme (pyStrip content) = true
      · rw [if_pos hrel]
        by_cases hlen : (pyStrip content).length < 10
        · rw [if_pos hlen]
          rcases owErr_step renv theme n a c u _ _ rfl with h | h
          · exact Or.inl h
          · exact Or.inr (Or.inl h)
        · rw [if_neg hlen]
          exact Or.inl ⟨_, rfl⟩
      · rw [if_neg hrel]
        by_cases ha : a < 2
        · rw [if_pos ha]
          exact Or.inr (Or.inl ⟨ha, _, _, u + 3 + 1, rfl,
            Or.inr (Or.inr (Or.inr rfl))⟩)
        · rw [if_neg ha]
          cases hapi2 : renv.api (c + 1) with
          | ok fc =>
            simp only [hapi2]
            by_cases hfc : fc = []
            · rw [if_neg (not_not_intro hfc)]
              by_cases hlen2 : (pyStrip content).length < 10
              · rw [if_pos hlen2]
                rcases owErr_spec a (u + 3) renv.uni
                    (str "Generated poem is too short")
                    (fun v => owAttempt renv theme n (a + 1) (c + 1) v) with
                  ⟨e, heq⟩ | ⟨ha2, -⟩
                · rw [heq]
                  exact Or.inr (Or.inr ⟨ha, _, rfl⟩)
                · exact absurd ha2 ha
              · rw [if_neg hlen2]
                exact Or.inr (Or.inr ⟨ha, _, rfl⟩)
            · rw [if_pos hfc]
              exact Or.inr (Or.inr ⟨ha, _, rfl⟩)
          | exn m2 =>
            simp only [hapi2]
            by_cases hlen2 : (pyStrip content).length < 10
            · rw [if_pos hlen2]
              rcases owErr_spec a (u + 3) renv.uni
                  (str "Generated poem is too short")
                  (fun v => owAttempt renv theme n (a + 1) (c + 1) v) with
                ⟨e, heq⟩ | ⟨ha2, -⟩
              · rw [heq]
                exact Or.inr (Or.inr ⟨ha, _, rfl⟩)
              · exact absurd ha2 ha
            · rw [if_neg hlen2]
              exact Or.inr (Or.inr ⟨ha, _, rfl⟩)

/-- Master trace invariant of the attempt loop: at most `n` primary calls and
at most one focused call appear in the trace of a run with `n` attempts left;
every rate-limit backoff sleep in the trace has delay `1 * 2 ^ i +` jitter
for its attempt index `i < 2`; and under the loop invariant `a + n = 3`, a
`focused` event can only close the trace, after exactly `n` primary calls. -/
theorem owAttempt_bounds (renv : REnv) (theme : Str) :
    ∀ n a c u,
      ((owAttempt renv theme n a c u).2.countP isPrimB ≤ n ∧
       (owAttempt renv theme n a c u).2.countP isFocB ≤ 1 ∧
       (∀ d i, Ev.slept d (SleepK.rateLimit i) ∈ (owAttempt renv theme n a c u).2 →
         i < 2 ∧ ∃ j, d = 1 * (2 : ℚ) ^ i + renv.uni j)) ∧
      (a + n = 3 →
        ∀ pre post,
          (owAttempt renv theme n a c u).2 = pre ++ Ev.focused :: post →
          post = [] ∧ pre.countP isPrimB = n) := by
  intro n
  induction n with
  | zero =>
    intro a c u
    refine ⟨⟨by simp [owAttempt], by simp [owAttempt], ?_⟩, ?_⟩
    · intro d i hmem
      simp [owAttempt] at hmem
    · intro _ pre post hsplit
      simp only [owAttempt] at hsplit
      exact absurd hsplit.symm (List.append_ne_nil_of_right_ne_nil pre (by simp))
  | succ n ih =>
    intro a c u
    rcases owAttempt_succ_cases renv theme n a c u with
      ⟨x, heq⟩ | ⟨ha, d, sk, u', heq, hsk⟩ | ⟨ha, x, heq⟩
    · simp only [heq]
      refine ⟨⟨?_, ?_, ?_⟩, ?_⟩
      · simp [List.countP_cons, isPrimB]
      · simp [List.countP_cons, isFocB]
      · intro d i hmem
        simp at hmem
      · intro _ pre post hsplit
        have hm : Ev.focused ∈ ([Ev.prim a] : List Ev) := by
          rw [hsplit]
          exact List.mem_append_right _ (List.mem_cons_self _ _)
        simp at hm
    · simp only [heq]
      obtain ⟨⟨ihp, ihf, ihr⟩, ihsplit⟩ := ih (a + 1) (c + 1) u'
      refine ⟨⟨?_, ?_, ?_⟩, ?_⟩
      · simp [List.countP_cons, isPrimB, isFocB]
        omega
      · simp [List.countP_cons, isPrimB, isFocB]
        omega
      · intro d0 i hmem
        simp only [List.mem_cons] at hmem
        rcases hmem with h0 | h0 | h0
        · exact absurd h0 (by simp)
        · have hd : d0 = d ∧ SleepK.rateLimit i = sk := by
            simpa using h0
          rcases hsk with ⟨h1, j, h2⟩ | h1 | h1 | h1
          · have hi : i = a := by
              rw [h1] at hd
              simpa using hd.2
            subst hi
            exact ⟨ha, j, by rw [hd.1, h2]⟩
          · rw [h1] at hd
            simp at hd
          · rw [h1] at hd
            simp at hd
          · rw [h1] at hd
            simp at hd
        · exact ihr d0 i h0
      · intro h3 pre post hsplit
        obtain ⟨p1, hp1, hrest⟩ := cons_decomp hsplit (by simp)
        obtain ⟨p2, hp2, hrest2⟩ := cons_decomp hrest (by simp)
        obtain ⟨hpost, hcount⟩ := ihsplit (by omega) p2 post hrest2
        refine ⟨hpost, ?_⟩
        rw [hp1, hp2]
        simp [List.countP_cons, isPrimB]
        omega
    · simp only [heq]
      refine ⟨⟨?_, ?_, ?_⟩, ?_⟩
      · simp [List.countP_cons, isPrimB]
      · simp [List.countP_cons, isFocB]
      · intro d i hmem
        simp at hmem
      · intro h3 pre post hsplit
        have hn : n = 0 := by omega
        rcases pre with _ | ⟨e1, pre1⟩
        · simp only [List.nil_append, List.cons.injEq] at hsplit
          exact absurd hsplit.1 (by simp)
        · simp only [List.cons_append, List.cons.injEq] at hsplit
          rcases pre1 with _ | ⟨e2, pre2⟩
          · simp only [List.nil_append, List.cons.injEq] at hsplit
            refine ⟨hsplit.2.2.symm, ?_⟩
            rw [← hsplit.1]
            simp [List.countP_cons, isPrimB, hn]
          · simp only [List.cons_append, List.cons.injEq] at hsplit
            exact absurd hsplit.2.2.symm
              (List.append_ne_nil_of_right_ne_nil pre2 (by simp))

/-! ## Helper lemmas for the claim-level theorems -/

/-- `replace` on a text with no occurrence of the pattern is the identity. -/
theorem replaceAll_skip (p r t : Str) (h : splitFirst p t = none) :
    replaceAll p r t = t := by
  rw [replaceAll, replaceAllF, h]

/-- The spec's consistent custom fill is the identity when no listed
placeholder occurs. -/
theorem consistentFillCustom_skip :
    ∀ (banks : List (Str × List Str)) (ws : List Str) (t : Str),
      (∀ cw ∈ banks, splitFirst (ph cw.1) t = none) →
      consistentFillCustom banks ws t = t := by
  intro banks
  induction banks with
  | nil => intro ws t _; rfl
  | cons cw rest ih =>
    intro ws t h
    cases ws with
    | nil => rfl
    | cons w ws' =>
      obtain ⟨cat, bank⟩ := cw
      show consistentFillCustom rest ws' (replaceAll (ph cat) w t) = t
      rw [replaceAll_skip _ _ _ (h (cat, bank) (by simp))]
      exact ih ws' t (fun cw' h' => h cw' (by simp [h']))

/-- Symbolic one-pass replacement of the three `{adjective}` occurrences of
the C6 counterexample's template by one word. -/
theorem split_c6 (w : Str) :
    replaceAll (ph (str "adjective")) w T6 =
      (s61 ++ w) ++ ((s62 ++ w) ++ ((s63 ++ w) ++ s64)) := rfl

/-- The C6 counterexample run's concrete output: the three `{adjective}`
occurrences received three distinct words. -/
theorem c6_out :
    (customThemePoem envD th6 PLength.short ⟨0, 0⟩).1 =
      (s61 ++ str "vibrant") ++ ((s62 ++ str "graceful") ++
        ((s63 ++ str "enchanting") ++ s64)) := by decide

/-- Full case analysis of `generate_poem`: validation error on a blank
theme; on a non-blank theme, remote text with the remote method when a
client is configured and the remote run succeeds; otherwise the mock
engine's text with the fallback method. -/
theorem generatePoemSvc_spec (configured : Bool) (renv : REnv) (menv : MockEnv)
    (theme : Str) (style : PStyle) (len : PLength) (g : PyRandom) :
    (pyStrip theme = [] ∧
      generatePoemSvc configured renv menv theme style len g =
        (.error (str "Theme cannot be empty"), g)) ∨
    (pyStrip theme ≠ [] ∧ configured = true ∧
      ∃ t, (owRun renv (pyStrip theme) style len).1 = .ok t ∧
        generatePoemSvc configured renv menv theme style len g =
          (.ok (t, .openai), g)) ∨
    (pyStrip theme ≠ [] ∧ configured = false ∧
      generatePoemSvc configured renv menv theme style len g =
        (.ok ((mockPoem menv (pyStrip theme) style len g).1, .fallback),
          (mockPoem menv (pyStrip theme) style len g).2)) ∨
    (pyStrip theme ≠ [] ∧ configured = true ∧
      (∃ e, (owRun renv (pyStrip theme) style len).1 = .error e) ∧
      generatePoemSvc configured renv menv theme style len g =
        (.ok ((mockPoem menv (pyStrip theme) style len g).1, .fallback),
          (mockPoem menv (pyStrip theme) style len g).2)) := by
  by_cases hs : pyStrip theme = []
  · exact Or.inl ⟨hs, by simp only [generatePoemSvc, if_pos hs]⟩
  · cases configured with
    | true =>
      cases how : (owRun renv (pyStrip theme) style len).1 with
      | ok t =>
        refine Or.inr (Or.inl ⟨hs, rfl, t, rfl, ?_⟩)
        simp [generatePoemSvc, if_neg hs, how]
      | error e =>
        refine Or.inr (Or.inr (Or.inr ⟨hs, rfl, ⟨e, rfl⟩, ?_⟩))
        simp [generatePoemSvc, if_neg hs, how]
    | false =>
      refine Or.inr (Or.inr (Or.inl ⟨hs, rfl, ?_⟩))
      simp [generatePoemSvc, if_neg hs]

/-- A line whose stripped form case-insensitively starts with a boilerplate
prefix is dropped by the sanitizer's line loop. -/
theorem cleanLine_drop (line : Str) (hne : pyStrip line ≠ [])
    (h : ∃ p ∈ prefixesToRemove, StartsWith (lowerL (pyStrip line)) (lowerL p)) :
    cleanLine line = none := by
  obtain ⟨p, hp, hsw⟩ := h
  simp only [cleanLine]
  rw [if_neg hne, if_pos]
  exact List.any_eq_true.mpr ⟨p, hp, (isPrefB_iff _ _).mpr hsw⟩

/-- A blank line is preserved (as an empty cleaned line). -/
theorem cleanLine_blank (line : Str) (h : pyStrip line = []) :
    cleanLine line = some [] := by
  simp only [cleanLine]
  rw [if_pos h]

/-- A non-dropped line fully wrapped in a matching pair of straight quotes
is kept with the pair stripped. -/
theorem cleanLine_quotes (line : Str) (hne : pyStrip line ≠ [])
    (hnp : ∀ p ∈ prefixesToRemove, ¬ StartsWith (lowerL (pyStrip line)) (lowerL p))
    (hq : ((pyStrip line).head? = some '"' ∧ (pyStrip line).getLast? = some '"') ∨
      ((pyStrip line).head? = some '\'' ∧ (pyStrip line).getLast? = some '\'')) :
    cleanLine line = some (((pyStrip line).drop 1).dropLast) := by
  have hanyf : ¬ (prefixesToRemove.any
      (fun p => isPrefB (lowerL p) (lowerL (pyStrip line))) = true) := by
    intro hb
    obtain ⟨p, hp, hpb⟩ := List.any_eq_true.mp hb
    exact hnp p hp ((isPrefB_iff _ _).mp hpb)
  have hcond : ((pyStrip line).head? == some '"' &&
        (pyStrip line).getLast? == some '"' ||
      ((pyStrip line).head? == some '\'' &&
        (pyStrip line).getLast? == some '\'')) = true := by
    rcases hq with ⟨h1, h2⟩ | ⟨h1, h2⟩ <;> simp [h1, h2]
  simp only [cleanLine]
  rw [if_neg hne, if_neg hanyf, if_pos hcond]

/-! ## The ten claims -/

/-- C1 (corrected): `generate_poem` fails exactly on a whitespace-only theme,
with the `ValueError` message, and otherwise returns a poem, absorbing every
remote failure by falling back to the template engine; the ≥ 10-character
guarantee holds whenever the fallback engine produced the text.  On the
remote path the minimum-length check precedes the final sanitization, so the
returned text can be shorter (see the counterexample). -/
theorem claim_C1 (configured : Bool) (renv : REnv) (menv : MockEnv)
    (theme : Str) (style : PStyle) (len : PLength) (g : PyRandom) :
    (pyStrip theme = [] →
      (generatePoemSvc configured renv menv theme style len g).1 =
        .error (str "Theme cannot be empty")) ∧
    (pyStrip theme ≠ [] →
      ∃ t m g', generatePoemSvc configured renv menv theme style len g =
        (.ok (t, m), g') ∧ (m = GenMethod.fallback → 10 ≤ t.length)) := by
  constructor
  · intro hs
    rcases generatePoemSvc_spec configured renv menv theme style len g with
      ⟨-, heq⟩ | ⟨hs', -⟩ | ⟨hs', -⟩ | ⟨hs', -⟩
    · rw [heq]
    · exact absurd hs hs'
    · exact absurd hs hs'
    · exact absurd hs hs'
  · intro hs
    rcases generatePoemSvc_spec configured renv menv theme style len g with
      ⟨hs', -⟩ | ⟨-, -, t, -, heq⟩ | ⟨-, -, heq⟩ | ⟨-, -, -, heq⟩
    · exact absurd hs' hs
    · exact ⟨t, .openai, g, heq, by simp⟩
    · exact ⟨_, .fallback, _, heq,
        fun _ => mockPoem_len menv (pyStrip theme) style len g⟩
    · exact ⟨_, .fallback, _, heq,
        fun _ => mockPoem_len menv (pyStrip theme) style len g⟩

/-- C1 counterexample: a configured remote client returns a relevant poem
that passes the ≥ 10 length check, but after sanitization only a 3-character
line survives, and the service returns it. -/
theorem claim_C1_cex :
    (generatePoemSvc true rShort env0 (str " joy ") PStyle.creative
        PLength.short g0).1 = .ok (str "hey", GenMethod.openai) ∧
    (str "hey").length < 10 :=
  ⟨rfl, by decide⟩

/-- C2 (corrected): the endpoint's `generation_method` field reports the
remote method exactly when a client is configured, not which path actually
produced the text; the report matches the producing path only when no client
is configured or the remote path succeeded. -/
theorem claim_C2 (configured : Bool) (renv : REnv) (menv : MockEnv)
    (theme : Str) (style : PStyle) (len : PLength) (g : PyRandom)
    (t : Str) (m : GenMethod) (g' : PyRandom)
    (h : generatePoemSvc configured renv menv theme style len g = (.ok (t, m), g')) :
    endpointGenerationMethod configured = m ↔
      (configured = false ∨ m = GenMethod.openai) := by
  rcases generatePoemSvc_spec configured renv menv theme style len g with
    ⟨-, heq⟩ | ⟨-, hc, t0, -, heq⟩ | ⟨-, hc, heq⟩ | ⟨-, hc, -, heq⟩
  · rw [heq] at h
    have h1 : (Except.error (str "Theme cannot be empty") :
        Except Str (Str × GenMethod)) = .ok (t, m) := congrArg Prod.fst h
    exact absurd h1 (by simp)
  · rw [heq] at h
    have h1 : (Except.ok (t0, GenMethod.openai) :
        Except Str (Str × GenMethod)) = .ok (t, m) := congrArg Prod.fst h
    simp only [Except.ok.injEq, Prod.mk.injEq] at h1
    rw [← h1.2]
    simp [endpointGenerationMethod, hc]
  · rw [heq] at h
    have h1 : (Except.ok ((mockPoem menv (pyStrip theme) style len g).1,
        GenMethod.fallback) : Except Str (Str × GenMethod)) = .ok (t, m) :=
      congrArg Prod.fst h
    simp only [Except.ok.injEq, Prod.mk.injEq] at h1
    rw [← h1.2]
    simp [endpointGenerationMethod, hc]
  · rw [heq] at h
    have h1 : (Except.ok ((mockPoem menv (pyStrip theme) style len g).1,
        GenMethod.fallback) : Except Str (Str × GenMethod)) = .ok (t, m) :=
      congrArg Prod.fst h
    simp only [Except.ok.injEq, Prod.mk.injEq] at h1
    rw [← h1.2]
    simp [endpointGenerationMethod, hc]

/-- C2 witness at a concrete unconfigured run: the report agrees with the
fallback path. -/
theorem claim_C2_witness :
    endpointGenerationMethod false = GenMethod.fallback ↔
      (false = false ∨ GenMethod.fallback = GenMethod.openai) :=
  claim_C2 false rFail env0 (str "zebra") PStyle.creative PLength.short g0
    (mockPoem env0 (pyStrip (str "zebra")) PStyle.creative PLength.short g0).1
    GenMethod.fallback
    (mockPoem env0 (pyStrip (str "zebra")) PStyle.creative PLength.short g0).2 rfl

/-- C2 counterexample: with a configured client whose calls all fail, the
fallback engine produces the text while the endpoint still reports the
remote method. -/
theorem claim_C2_cex :
    (generatePoemSvc true rFail env0 (str "zebra") PStyle.creative
        PLength.short g0).1 =
      .ok ((mockPoem env0 (str "zebra") PStyle.creative PLength.short g0).1,
        GenMethod.fallback) ∧
    endpointGenerationMethod true = GenMethod.openai ∧
    GenMethod.openai ≠ GenMethod.fallback :=
  ⟨rfl, rfl, by decide⟩

/-- C3 (corrected): the sanitizer runs only on the remote path's text; when
the fallback engine produces the text, the service returns it directly with
no `_clean_poem_text` pass. -/
theorem claim_C3 (configured : Bool) (renv : REnv) (menv : MockEnv)
    (theme : Str) (style : PStyle) (len : PLength) (g : PyRandom)
    (hs : pyStrip theme ≠ [])
    (hfail : configured = false ∨
      ∃ e, (owRun renv (pyStrip theme) style len).1 = .error e) :
    (generatePoemSvc configured renv menv theme style len g).1 =
      .ok ((mockPoem menv (pyStrip theme) style len g).1, GenMethod.fallback) := by
  rcases generatePoemSvc_spec configured renv menv theme style len g with
    ⟨hs', -⟩ | ⟨-, hc, t0, how, heq⟩ | ⟨-, -, heq⟩ | ⟨-, -, -, heq⟩
  · exact absurd hs' hs
  · rcases hfail with hc' | ⟨e, how'⟩
    · rw [hc] at hc'
      cases hc'
    · exact absurd (how.symm.trans how') (by simp)
  · rw [heq]
  · rw [heq]

/-- C3 witness at a concrete unconfigured run. -/
theorem claim_C3_witness :
    (generatePoemSvc false rFail env0 (str "zebra") PStyle.creative
        PLength.short g0).1 =
      .ok ((mockPoem env0 (pyStrip (str "zebra")) PStyle.creative
        PLength.short g0).1, GenMethod.fallback) :=
  claim_C3 false rFail env0 (str "zebra") PStyle.creative PLength.short g0
    (by decide) (Or.inl rfl)

/-- C3 counterexample: for the theme `x`-newline-`Title: y` the fallback
text embeds a line starting with `Title:`, which the sanitizer would drop;
the service returns the text unchanged, so the returned text is not
sanitizer-stable. -/
theorem claim_C3_cex :
    (generatePoemSvc false rFail env0 (str "x\nTitle: y") PStyle.creative
        PLength.short g0).1 =
      .ok ((mockPoem env0 (str "x\nTitle: y") PStyle.creative
        PLength.short g0).1, GenMethod.fallback) ∧
    cleanPoemText (mockPoem env0 (str "x\nTitle: y") PStyle.creative
        PLength.short g0).1 ≠
      (mockPoem env0 (str "x\nTitle: y") PStyle.creative PLength.short g0).1 :=
  ⟨rfl, by decide⟩

/-- C4 (corrected): the local template engine re-seeds and mutates the
process-wide generator rather than confining randomness to a request-local
one: after any run the shared state is the MD5-derived seed with at least
one draw consumed, and the final shared state is the same whatever state
another concurrent request had left. -/
theorem claim_C4 (env : MockEnv) (theme : Str) (style : PStyle)
    (len : PLength) (g g' : PyRandom) :
    (mockPoem env theme style len g).2.seedv =
      env.md5h (seedString theme style len env.micro) ∧
    1 ≤ (mockPoem env theme style len g).2.cnt ∧
    (mockPoem env theme style len g).2 = (mockPoem env theme style len g').2 := by
  obtain ⟨h1, h2⟩ := mockPoem_reseeds env theme style len g
  refine ⟨h1, h2, ?_⟩
  simp only [mockPoem]

/-- C4 counterexample: a concrete run destroys the incoming process-wide
state `⟨5, 7⟩`, leaving the re-seeded state `⟨0, 2⟩`. -/
theorem claim_C4_cex :
    (mockPoem env0 (str "zebra") PStyle.creative PLength.short g0).2 ≠ g0 ∧
    (mockPoem env0 (str "zebra") PStyle.creative PLength.short g0).2 =
      (⟨0, 2⟩ : PyRandom) :=
  ⟨by decide, by decide⟩

/-- C5 (corrected): for every brace-free theme with at least one token
longer than two characters, the local engine's text contains such a token
case-insensitively or ends with the explicit `(about <theme>)` annotation;
for themes containing `{` the guarantee fails (see the counterexample),
because the custom-theme path substitutes into the inserted theme and never
performs the relevance check. -/
theorem claim_C5 (env : MockEnv) (theme : Str) (style : PStyle)
    (len : PLength) (g : PyRandom) (hth : '{' ∉ theme)
    (htok : themeTokens theme ≠ []) :
    (∃ tok ∈ themeTokens theme,
      ContainsS (lowerL (mockPoem env theme style len g).1) tok) ∨
    EndsWith (mockPoem env theme style len g).1
      (str "(about " ++ theme ++ [')']) :=
  mockPoem_relevance env theme style len g hth htok

/-- C5 witness at a concrete run. -/
theorem claim_C5_witness :
    (∃ tok ∈ themeTokens (str "zebra"),
      ContainsS (lowerL (mockPoem env0 (str "zebra") PStyle.creative
        PLength.short g0).1) tok) ∨
    EndsWith (mockPoem env0 (str "zebra") PStyle.creative PLength.short g0).1
      (str "(about " ++ str "zebra" ++ [')']) :=
  claim_C5 env0 (str "zebra") PStyle.creative PLength.short g0
    (by decide) (by decide)

/-- C5 counterexample: the theme `{noun}` contributes the token `{noun}`,
but the custom-theme generator substitutes a word bank entry into the
inserted theme, so the output neither contains the token nor carries the
annotation. -/
theorem claim_C5_cex :
    themeTokens (str "{noun}") = [str "{noun}"] ∧
    ¬ ContainsS (lowerL (mockPoem env0 (str "{noun}") PStyle.creative
        PLength.short g0).1) (str "{noun}") ∧
    ¬ EndsWith (mockPoem env0 (str "{noun}") PStyle.creative
        PLength.short g0).1 (str "(about " ++ str "{noun}" ++ [')']) := by
  refine ⟨by decide, ?_, ?_⟩
  · intro h
    exact absurd ((isInfB_iff _ _).mpr h) (by decide)
  · intro h
    exact absurd ((isSuffB_iff _ _).mpr h) (by decide)

/-- C6 (corrected): on the keyword-classified path the engine's output has
the specification's consistent-fill shape — one word per category, the same
word at every case-variant occurrence of that category's placeholder; the
custom-theme path substitutes occurrences one at a time with independent
draws and violates this (see the counterexample). -/
theorem claim_C6 (env : MockEnv) (t : Str) (g : PyRandom) :
    ∃ ws, List.Forall₂ (fun (w : Str) (cw : Str × List Str) => w ∈ cw.2)
        ws wordBanks ∧
      (fillCats env wordBanks t g).1 = consistentFill wordBanks ws t :=
  fillCats_consistent env wordBanks t g (fun cw h => (wordBanks_cond cw h).1)

/-- C6 counterexample: a concrete custom-path run whose three `{adjective}`
occurrences received three distinct words, so its output differs from every
consistent fill of the template it instantiated. -/
theorem claim_C6_cex :
    (replaceAll (str "\"{theme}\"") ('"' :: (th6 ++ ['"']))
        (pychoice envD (customTemplates PLength.short) ⟨0, 0⟩).1 = T6) ∧
    T6 = s61 ++ str "{adjective}" ++ s62 ++ str "{adjective}" ++ s63 ++
      str "{adjective}" ++ s64 ∧
    str "vibrant" ≠ str "graceful" ∧
    ∀ ws : List Str,
      List.Forall₂ (fun (w : Str) (cw : Str × List Str) => w ∈ cw.2)
        ws wordBanks →
      (customThemePoem envD th6 PLength.short ⟨0, 0⟩).1 ≠
        consistentFillCustom wordBanks ws T6 := by
  refine ⟨by decide, rfl, by decide, ?_⟩
  intro ws hf hEq
  rw [c6_out] at hEq
  simp only [wordBanks] at hf
  obtain ⟨w0, l0, hw0, hg0, rfl⟩ := List.forall₂_cons_right_iff.mp hf
  obtain ⟨w1, l1, hw1, hg1, rfl⟩ := List.forall₂_cons_right_iff.mp hg0
  obtain ⟨w2, l2, hw2, hg2, rfl⟩ := List.forall₂_cons_right_iff.mp hg1
  obtain ⟨w3, l3, hw3, hg3, rfl⟩ := List.forall₂_cons_right_iff.mp hg2
  obtain ⟨w4, l4, hw4, hg4, rfl⟩ := List.forall₂_cons_right_iff.mp hg3
  obtain ⟨w5, l5, hw5, hg5, rfl⟩ := List.forall₂_cons_right_iff.mp hg4
  obtain ⟨w6, l6, hw6, hg6, rfl⟩ := List.forall₂_cons_right_iff.mp hg5
  obtain ⟨w7, l7, hw7, hg7, rfl⟩ := List.forall₂_cons_right_iff.mp hg6
  obtain ⟨w8, l8, hw8, hg8, rfl⟩ := List.forall₂_cons_right_iff.mp hg7
  obtain ⟨w9, l9, hw9, hg9, rfl⟩ := List.forall₂_cons_right_iff.mp hg8
  rw [List.forall₂_nil_right_iff] at hg9
  subst hg9
  have e1 : consistentFillCustom wordBanks
      (w0 :: w1 :: w2 :: w3 :: w4 :: w5 :: w6 :: w7 :: w8 :: w9 :: []) T6 =
      consistentFillCustom (wordBanks.drop 3)
        (w3 :: w4 :: w5 :: w6 :: w7 :: w8 :: w9 :: [])
        ((s61 ++ w2) ++ ((s62 ++ w2) ++ ((s63 ++ w2) ++ s64))) := by
    show consistentFillCustom (wordBanks.drop 3)
        (w3 :: w4 :: w5 :: w6 :: w7 :: w8 :: w9 :: [])
        (replaceAll (ph (str "adjective")) w2
          (replaceAll (ph (str "season")) w1
            (replaceAll (ph (str "flower")) w0 T6))) = _
    rw [replaceAll_skip (ph (str "flower")) w0 T6 (by decide),
      replaceAll_skip (ph (str "season")) w1 T6 (by decide), split_c6]
  have key : ∀ w : Str, w ∈ [str "gentle", str "radiant", str "peaceful",
      str "vibrant", str "serene", str "luminous", str "graceful",
      str "tender", str "mystical", str "enchanting"] →
      consistentFillCustom (wordBanks.drop 3)
        (w3 :: w4 :: w5 :: w6 :: w7 :: w8 :: w9 :: [])
        ((s61 ++ w) ++ ((s62 ++ w) ++ ((s63 ++ w) ++ s64))) =
        ((s61 ++ w) ++ ((s62 ++ w) ++ ((s63 ++ w) ++ s64))) ∧
      (s61 ++ str "vibrant") ++ ((s62 ++ str "graceful") ++
        ((s63 ++ str "enchanting") ++ s64)) ≠
        ((s61 ++ w) ++ ((s62 ++ w) ++ ((s63 ++ w) ++ s64))) := by
    intro w hw
    fin_cases hw <;>
      exact ⟨consistentFillCustom_skip _ _ _ (by decide), by decide⟩
  have hw2' : w2 ∈ [str "gentle", str "radiant", str "peaceful",
      str "vibrant", str "serene", str "luminous", str "graceful",
      str "tender", str "mystical", str "enchanting"] := hw2
  obtain ⟨hsk, hne2⟩ := key w2 hw2'
  rw [e1, hsk] at hEq
  exact hne2 hEq

/-- C7: every remote run issues at most 3 primary API calls and at most one
focused-retry call; a focused call happens only after the third primary call
and closes the run. -/
theorem claim_C7 (renv : REnv) (theme : Str) (style : PStyle) (len : PLength) :
    (owRun renv theme style len).2.countP isPrimB ≤ 3 ∧
    (owRun renv theme style len).2.countP isFocB ≤ 1 ∧
    ∀ pre post, (owRun renv theme style len).2 = pre ++ Ev.focused :: post →
      post = [] ∧ pre.countP isPrimB = 3 := by
  obtain ⟨⟨h1, h2, -⟩, h4⟩ := owAttempt_bounds renv theme 3 0 0 0
  exact ⟨h1, h2, h4 rfl⟩

/-- C8: every rate-limit backoff sleep of a remote run has delay
`1.0 * 2 ^ attempt` plus an oracle jitter draw, and the deterministic part
strictly increases with the attempt index. -/
theorem claim_C8 (renv : REnv) (theme : Str) (style : PStyle) (len : PLength)
    (d : ℚ) (i : ℕ)
    (hmem : Ev.slept d (SleepK.rateLimit i) ∈ (owRun renv theme style len).2) :
    (∃ j, d = 1 * (2 : ℚ) ^ i + renv.uni j) ∧
    ∀ i', i < i' → 1 * (2 : ℚ) ^ i < 1 * (2 : ℚ) ^ i' := by
  obtain ⟨⟨-, -, h3⟩, -⟩ := owAttempt_bounds renv theme 3 0 0 0
  obtain ⟨-, hj⟩ := h3 d i hmem
  refine ⟨hj, ?_⟩
  intro i' hii
  have h := pow_lt_pow_right₀ (by norm_num : (1 : ℚ) < 2) hii
  simpa using h

/-- The first backoff sleep of a run whose every call rate-limits. -/
theorem rRL_mem :
    Ev.slept (1 * (2 : ℚ) ^ 0 + rRL.uni (0 + 3)) (SleepK.rateLimit 0) ∈
      (owRun rRL (str "sky") PStyle.creative PLength.short).2 := by
  show Ev.slept (1 * (2 : ℚ) ^ 0 + rRL.uni (0 + 3)) (SleepK.rateLimit 0) ∈
    (owAttempt rRL (str "sky") 3 0 0 0).2
  have htr : (owAttempt rRL (str "sky") 3 0 0 0).2 =
      Ev.prim 0 ::
        Ev.slept (1 * (2 : ℚ) ^ 0 + rRL.uni (0 + 3)) (SleepK.rateLimit 0) ::
        (owAttempt rRL (str "sky") 2 1 1 (0 + 3 + 1)).2 := rfl
  rw [htr]
  exact List.mem_cons_of_mem _ (List.mem_cons_self _ _)

/-- C8 witness on a run whose every call rate-limits: the first backoff
sleep has delay `1 * 2 ^ 0` plus the jitter draw. -/
theorem claim_C8_witness :
    (∃ j, 1 * (2 : ℚ) ^ 0 + rRL.uni (0 + 3) = 1 * (2 : ℚ) ^ 0 + rRL.uni j) ∧
    ∀ i', 0 < i' → 1 * (2 : ℚ) ^ 0 < 1 * (2 : ℚ) ^ i' :=
  claim_C8 rRL (str "sky") PStyle.creative PLength.short
    (1 * (2 : ℚ) ^ 0 + rRL.uni (0 + 3)) 0 rRL_mem

/-- C9: the sanitizer drops every line whose stripped form case-insensitively
starts with a boilerplate prefix, keeps blank lines as empty lines, strips a
single matching pair of straight quotes from a fully wrapped line; on the
concrete examples, the boilerplate line is removed, a single-quoted line is
unwrapped, and a blank separator line is preserved. -/
theorem claim_C9 :
    (∀ line : Str, pyStrip line ≠ [] →
      (∃ p ∈ prefixesToRemove, StartsWith (lowerL (pyStrip line)) (lowerL p)) →
      cleanLine line = none) ∧
    (∀ line : Str, pyStrip line = [] → cleanLine line = some []) ∧
    (∀ line : Str, pyStrip line ≠ [] →
      (∀ p ∈ prefixesToRemove, ¬ StartsWith (lowerL (pyStrip line)) (lowerL p)) →
      (((pyStrip line).head? = some '"' ∧ (pyStrip line).getLast? = some '"') ∨
        ((pyStrip line).head? = some '\'' ∧
          (pyStrip line).getLast? = some '\'')) →
      cleanLine line = some (((pyStrip line).drop 1).dropLast)) ∧
    cleanPoemText (str "Here's a poem about joy\n'Hello'\n\nLight falls") =
      str "Hello\n\nLight falls" ∧
    cleanPoemText (str "Here's a poem about joy") = [] ∧
    cleanPoemText (str "'Hello'") = str "Hello" :=
  ⟨cleanLine_drop, cleanLine_blank, cleanLine_quotes,
    by decide, by decide, by decide⟩

/-- C10 (corrected): for every brace-free theme no case-variant placeholder
form and no `{theme}` placeholder survives in the local engine's output; a
theme containing `{` can smuggle a placeholder through (see the
counterexample), since the custom path replaces only the lower-case form. -/
theorem claim_C10 (env : MockEnv) (theme : Str) (style : PStyle)
    (len : PLength) (g : PyRandom) (q : Str) (hth : '{' ∉ theme)
    (hq : q ∈ allPatterns) :
    ¬ ContainsS (mockPoem env theme style len g).1 q :=
  mockPoem_no_pattern env theme style len g q hth hq

/-- C10 witness at a concrete run and the `{theme}` pattern. -/
theorem claim_C10_witness :
    ¬ ContainsS (mockPoem env0 (str "zebra") PStyle.creative
        PLength.short g0).1 (str "{theme}") :=
  claim_C10 env0 (str "zebra") PStyle.creative PLength.short g0
    (str "{theme}") (by decide) (by decide)

/-- C10 counterexample: the theme `{NOUN}` routes to the custom generator,
which replaces only `{noun}`; the upper-case placeholder form survives into
the returned text. -/
theorem claim_C10_cex :
    str "{NOUN}" ∈ allPatterns ∧
    ContainsS (mockPoem env0 (str "{NOUN}") PStyle.creative
        PLength.short g0).1 (str "{NOUN}") :=
  ⟨by decide, (isInfB_iff _ _).mp (by decide)⟩
